import Mathlib

/-
Verification development for the nonprofit-collaboration simulation
(simulation/simulation.py).  The Python classes are shallowly embedded:

* `Obj`, `PlayerSt`, `TeamSt`, `State` mirror the mutable object graph
  (Player.objectives is a dict from global table index to [name, value];
  here an association list from `Nat` to `Obj` where `Obj` records the
  lower-case resource letter, the numeric subscript and the value).
* Mutating methods (`dropObjective`, `giveObjective`, `joinTeam`) become
  state transformers returning `Except String State`; a Python exception
  (KeyError, ValueError, the explicit `raise Exception(...)` guards)
  becomes `.error`.
* Python truthiness on optional integer arguments (`if objective_to_drop:`)
  is modelled by `pyTruthy`, which is false for `None` and for the integer 0.
* `shuffle`/`sample`/`choice` outcomes are passed in as explicit parameters
  (a shuffled list, a partition, a boolean coin), so every function is a
  deterministic function of the random draws, exactly as the seeded Python
  generator makes it.
-/

set_option maxHeartbeats 1000000

namespace NPSim

instance exceptDecEq {ε α : Type} [DecidableEq ε] [DecidableEq α] : DecidableEq (Except ε α)
  | .ok a, .ok b =>
    if h : a = b then .isTrue (by rw [h]) else .isFalse (by simp [h])
  | .ok _, .error _ => .isFalse (by simp)
  | .error _, .ok _ => .isFalse (by simp)
  | .error e, .error f =>
    if h : e = f then .isTrue (by rw [h]) else .isFalse (by simp [h])

/-- Python truthiness of an optional integer argument: `None` and `0` are falsy. -/
def pyTruthy : Option Nat → Bool
  | none => false
  | some n => decide (n ≠ 0)

/-- One objective instance: lower-case resource letter, numeric subscript
(1 = high value, 2 = low value) and point value, mirroring entries
`['a1', 20]` of `Player.objectives`. -/
structure Obj where
  letter : Char
  sub : Nat
  value : Int
deriving DecidableEq

/-- A player: unique id, fixed resource letter (upper case), objective
holdings keyed by global objective-table index, and the back-reference
`self.team` stored as the team's index. -/
structure PlayerSt where
  id : Nat
  resource : Char
  objectives : List (Nat × Obj)
  teamId : Nat
deriving DecidableEq

/-- A team: stable integer index and the member list (player ids), the
authority for membership (`Team.players`). -/
structure TeamSt where
  index : Nat
  members : List Nat
deriving DecidableEq

/-- The whole mutable object graph of one run: all players, all teams, and
the `dropped_objectives` / `traded_objectives` tracking lists. -/
structure State where
  players : List PlayerSt
  teams : List TeamSt
  dropped : List Obj
  traded : List Obj
deriving DecidableEq

def findPlayer (s : State) (pid : Nat) : Option PlayerSt :=
  s.players.find? (fun p => p.id = pid)

def findTeam (ts : List TeamSt) (tid : Nat) : Option TeamSt :=
  ts.find? (fun t => t.index = tid)

/-- Apply `f` to the (unique) player with id `pid`. -/
def updatePlayers (ps : List PlayerSt) (pid : Nat) (f : PlayerSt → PlayerSt) : List PlayerSt :=
  ps.map (fun p => if p.id = pid then f p else p)

/-- Apply `f` to the (unique) team with index `tid`. -/
def updateTeams (ts : List TeamSt) (tid : Nat) (f : TeamSt → TeamSt) : List TeamSt :=
  ts.map (fun t => if t.index = tid then f t else t)

def uniquifyAux {α : Type} [DecidableEq α] (seen : List α) : List α → List α
  | [] => []
  | x :: xs => if x ∈ seen then uniquifyAux seen xs else x :: uniquifyAux (x :: seen) xs

/-- The helper `uniquify(seq)`: keep the first occurrence of each element. -/
def uniquify {α : Type} [DecidableEq α] (l : List α) : List α := uniquifyAux [] l

/-- `Team.resources()`: the de-duplicated resources of the members. -/
def teamResources (s : State) (t : TeamSt) : List Char :=
  uniquify (t.members.filterMap (fun pid => (findPlayer s pid).map (fun p => p.resource)))

/-- Dictionary lookup `d[k]` on the objectives dict, as an `Option`. -/
def lookupObj (l : List (Nat × Obj)) (k : Nat) : Option Obj :=
  (l.find? (fun e => e.1 = k)).map (fun e => e.2)

/-- Dictionary deletion `del d[k]` / `d.pop(k)` (the key is unique in a dict). -/
def eraseKey (l : List (Nat × Obj)) (k : Nat) : List (Nat × Obj) :=
  l.eraseP (fun e => decide (e.1 = k))

/-- Dictionary assignment `d[k] = v`: overwrite if present, else add. -/
def dictInsert (l : List (Nat × Obj)) (k : Nat) (v : Obj) : List (Nat × Obj) :=
  if l.any (fun e => e.1 = k) then l.map (fun e => if e.1 = k then (k, v) else e)
  else l ++ [(k, v)]

/-- The scoring double loop at the end of `Player.currentTotal`: for every
held objective and every resource in scope, add the value on a letter match. -/
def scoreOf (objs : List (Nat × Obj)) (res : List Char) : Int :=
  (objs.map (fun e => (res.map (fun r => if r = e.2.letter.toUpper then e.2.value else 0)).sum)).sum

/-- The `test_object` argument of `Player.currentTotal`: a team or a player. -/
inductive TestObj where
  | team (t : TeamSt)
  | player (p : PlayerSt)
deriving DecidableEq

def getE {α : Type} (o : Option α) (msg : String) : Except String α :=
  match o with
  | some a => .ok a
  | none => .error msg

/-- Resources of the player's own team (`self.team.resources()`). -/
def playerTeamResources (s : State) (pl : PlayerSt) : Except String (List Char) :=
  match findTeam s.teams pl.teamId with
  | none => .error "missing team"
  | some t => .ok (teamResources s t)

/-- Player.currentTotal, with all its keyword arguments made explicit and
positional.  The three argument-validation `raise` statements become the
three leading error branches; dictionary KeyErrors on the drop/give
modifiers become errors as well. -/
def currentTotal (s : State) (pl : PlayerSt) (test_object : Option TestObj)
    (object_is_team : Bool) (new_team : Bool) (alone : Bool)
    (objective_to_drop : Option Nat) (given_objective : Option Nat)
    (giver : Option PlayerSt) : Except String Int :=
  if (object_is_team = true ∨ test_object = none) ∧ new_team = true then
    .error "new_team on a team object or without a test_object"
  else if new_team = true ∧ object_is_team = true then
    .error "new_team and object_is_team cannot both be true"
  else if giver = none ∧ ¬ given_objective = none then
    .error "giver without given_objective"
  else
    let objectivesE : Except String (List (Nat × Obj)) :=
      if pyTruthy given_objective && pyTruthy objective_to_drop then
        match objective_to_drop, given_objective, giver with
        | some d, some g, some gv =>
          if (lookupObj pl.objectives d).isSome then
            match lookupObj gv.objectives g with
            | some ob => .ok (dictInsert (eraseKey pl.objectives d) g ob)
            | none => .error "KeyError"
          else .error "KeyError"
        | _, _, _ => .error "KeyError"
      else if ¬ objective_to_drop = none then
        match objective_to_drop with
        | some d =>
          if (lookupObj pl.objectives d).isSome then .ok (eraseKey pl.objectives d)
          else .error "KeyError"
        | none => .error "KeyError"
      else if ¬ given_objective = none then
        match given_objective, giver with
        | some g, some gv =>
          match lookupObj gv.objectives g with
          | some ob => .ok (dictInsert pl.objectives g ob)
          | none => .error "KeyError"
        | _, _ => .error "KeyError"
      else .ok pl.objectives
    let resourcesE : Except String (List Char) :=
      if alone = true then .ok [pl.resource]
      else
        match test_object with
        | none => playerTeamResources s pl
        | some tobj =>
          if object_is_team = true then
            match tobj with
            | .team t => .ok (uniquify (teamResources s t ++ [pl.resource]))
            | .player _ => .error "AttributeError"
          else if new_team = true then
            match tobj with
            | .player q => .ok (uniquify ([pl.resource] ++ [q.resource]))
            | .team _ => .error "AttributeError"
          else
            match playerTeamResources s pl, tobj with
            | .ok own, .player q => .ok (uniquify (own ++ [q.resource]))
            | .error e, _ => .error e
            | _, .team _ => .error "AttributeError"
    match objectivesE, resourcesE with
    | .ok objs, .ok res => .ok (scoreOf objs res)
    | .error e, _ => .error e
    | _, .error e => .error e

/-- Community.total(): the sum of every player's plain `currentTotal()`. -/
def communityTotal (s : State) : Except String Int :=
  s.players.foldlM
    (fun acc p => do
      let v ← currentTotal s p none true false false none none none
      pure (acc + v))
    (0 : Int)

/-- Player.dropObjective: pop the objective (KeyError when absent) and append
it to the community's dropped-objectives list. -/
def dropObjective (s : State) (pid : Nat) (idx : Nat) : Except String State :=
  match findPlayer s pid with
  | none => .error "missing player"
  | some p =>
    match lookupObj p.objectives idx with
    | none => .error "KeyError"
    | some ob =>
      .ok { s with
        players := updatePlayers s.players pid
          (fun q => { q with objectives := eraseKey q.objectives idx }),
        dropped := s.dropped ++ [ob] }

/-- Player.giveObjective: pop from the giver (KeyError when absent), append to
the traded list, store under the same index in the receiver's dict. -/
def giveObjective (s : State) (giverId : Nat) (idx : Nat) (receiverId : Nat) :
    Except String State :=
  match findPlayer s giverId with
  | none => .error "missing player"
  | some g =>
    match lookupObj g.objectives idx with
    | none => .error "KeyError"
    | some ob =>
      match findPlayer s receiverId with
      | none => .error "missing receiver"
      | some _ =>
        .ok { s with
          players := updatePlayers
            (updatePlayers s.players giverId
              (fun q => { q with objectives := eraseKey q.objectives idx }))
            receiverId (fun q => { q with objectives := dictInsert q.objectives idx ob }),
          traded := s.traded ++ [ob] }

/-- Player.joinTeam: `self.team.removePlayer(self)` (ValueError when the
player is not on its recorded team), `team.addPlayer(self)`, and reassign the
back-reference. -/
def joinTeam (s : State) (pid : Nat) (tid : Nat) : Except String State :=
  match findPlayer s pid with
  | none => .error "missing player"
  | some p =>
    match findTeam s.teams p.teamId with
    | none => .error "missing team"
    | some told =>
      if pid ∈ told.members then
        if (findTeam s.teams tid).isSome then
          .ok { s with
            teams := updateTeams
              (updateTeams s.teams p.teamId (fun t => { t with members := t.members.erase pid }))
              tid (fun t => { t with members := t.members ++ [pid] }),
            players := updatePlayers s.players pid (fun q => { q with teamId := tid }) }
        else .error "missing target team"
      else .error "ValueError"

/-- Appending a fresh `Team(index)` to `self.teams`, as variation 4 does. -/
def addTeam (s : State) (idx : Nat) : State :=
  { s with teams := s.teams ++ [{ index := idx, members := [] }] }

/-- Community.last_team_index(): `self.teams[-1].index`.  The Python code
indexes the last element; the model returns 0 for an (unreachable) empty
team list instead of raising IndexError. -/
def lastTeamIndex (s : State) : Nat :=
  (s.teams.getLast?).elim 0 (fun t => t.index)

/-- The match test of Player.best_given_objective: does any resource of the
candidate pool cover the objective? -/
def bgoMatches (resource_pool : List Char) (e : Nat × Obj) : Bool :=
  resource_pool.any (fun r => r = e.2.letter.toUpper)

/-- One guarded scan step of best_given_objective: Python's
`if not best_objective: <loop that overwrites best_objective on a match>`.
A truthy previous value survives; otherwise a found match overwrites
(even overwriting a previously found index 0), and no match keeps the
previous value. -/
def pyKeep (prev found : Option Nat) : Option Nat :=
  if pyTruthy prev then prev
  else
    match found with
    | some k => some k
    | none => prev

/-- The three targeted scans of best_given_objective when `other_resource`
is given: worthless-low first, then worthless-high, then good-low, each
wrapped in the `if not best_objective:` guard. -/
def bgoTargeted (worthless_low worthless_high good_low : List (Nat × Obj)) (r : Char) :
    Option Nat :=
  pyKeep
    (pyKeep ((worthless_low.find? (fun e => e.2.letter.toUpper = r)).map (fun e => e.1))
      ((worthless_high.find? (fun e => e.2.letter.toUpper = r)).map (fun e => e.1)))
    ((good_low.find? (fun e => e.2.letter.toUpper = r)).map (fun e => e.1))

/-- The generic fallback of best_given_objective: guarded by
`if not best_objective:`, take the first key of the first non-empty bucket,
in the order worthless-low, worthless-high, good-low, good-high; when every
bucket is empty the previous value survives. -/
def bgoFallback (worthless_low worthless_high good_low good_high : List (Nat × Obj))
    (targeted : Option Nat) : Option Nat :=
  if pyTruthy targeted then targeted
  else
    match worthless_low with
    | e :: _ => some e.1
    | [] =>
      match worthless_high with
      | e :: _ => some e.1
      | [] =>
        match good_low with
        | e :: _ => some e.1
        | [] =>
          match good_high with
          | e :: _ => some e.1
          | [] => targeted

/-- Player.best_given_objective.  `good`/`worthless` split the holdings on
whether the candidate resource pool covers the objective; each is split on
the subscript (`int(details[0][1]) == 1`). -/
def best_given_objective (pl : PlayerSt) (resource_pool : List Char)
    (other_resource : Option Char) : Option Nat :=
  let good := pl.objectives.filter (bgoMatches resource_pool)
  let worthless := pl.objectives.filter (fun e => !(bgoMatches resource_pool e))
  let good_high := good.filter (fun e => e.2.sub == 1)
  let good_low := good.filter (fun e => !(e.2.sub == 1))
  let worthless_high := worthless.filter (fun e => e.2.sub == 1)
  let worthless_low := worthless.filter (fun e => !(e.2.sub == 1))
  let targeted : Option Nat :=
    match other_resource with
    | none => none
    | some r => bgoTargeted worthless_low worthless_high good_low r
  bgoFallback worthless_low worthless_high good_low good_high targeted

/-- The permission-granted block of CollaborationModel.invite: the inviter
pays the cost (drop or give, each guarded by Python truthiness), after which
`invitee.joinTeam(invitee.team)` runs — the invitee joins its *own* team. -/
def inviteGrant (s : State) (inviterId inviteeId : Nat)
    (objective_to_drop objective_to_give : Option Nat) : Except String (Bool × State) := do
  let s1 ←
    match objective_to_drop with
    | some n => if n = 0 then pure s else dropObjective s inviterId n
    | none => pure s
  let s2 ←
    match objective_to_give with
    | some n => if n = 0 then pure s1 else giveObjective s1 inviterId n inviteeId
    | none => pure s1
  match findPlayer s2 inviteeId with
  | none => .error "missing invitee"
  | some q => do
    let s3 ← joinTeam s2 inviteeId q.teamId
    pure (true, s3)

/-- CollaborationModel.invite. -/
def invite (s : State) (inviterId inviteeId : Nat) (delta_if_move delta_if_stay : Int)
    (objective_to_drop objective_to_give : Option Nat) : Except String (Bool × State) :=
  if pyTruthy objective_to_drop && pyTruthy objective_to_give then
    .error "cannot pass objective_to_drop and objective_to_give at the same time"
  else if delta_if_move ≥ 0 ∧ delta_if_move > delta_if_stay then
    inviteGrant s inviterId inviteeId objective_to_drop objective_to_give
  else if delta_if_stay ≥ 0 ∧ delta_if_stay > delta_if_move then
    pure (false, s)
  else if delta_if_move = delta_if_stay ∧ delta_if_move > 0 then
    inviteGrant s inviterId inviteeId objective_to_drop objective_to_give
  else
    pure (false, s)

/-- The permission-granted block of CollaborationModel.move: the asker pays
the cost and then joins the asked player's team. -/
def moveGrant (s : State) (askerId askedId : Nat)
    (objective_to_drop objective_to_give : Option Nat) : Except String (Bool × State) := do
  let s1 ←
    match objective_to_drop with
    | some n => if n = 0 then pure s else dropObjective s askerId n
    | none => pure s
  let s2 ←
    match objective_to_give with
    | some n => if n = 0 then pure s1 else giveObjective s1 askerId n askedId
    | none => pure s1
  match findPlayer s2 askedId with
  | none => .error "missing asked"
  | some q => do
    let s3 ← joinTeam s2 askerId q.teamId
    pure (true, s3)

/-- CollaborationModel.move. -/
def move (s : State) (askerId askedId : Nat) (delta_if_move delta_if_stay : Int)
    (objective_to_drop objective_to_give : Option Nat) : Except String (Bool × State) :=
  if pyTruthy objective_to_drop && pyTruthy objective_to_give then
    .error "cannot pass objective_to_drop and objective_to_give at the same time"
  else if delta_if_stay > 0 ∧ delta_if_stay > delta_if_move then
    moveGrant s askerId askedId objective_to_drop objective_to_give
  else if delta_if_move > 0 ∧ delta_if_move > delta_if_stay then
    pure (false, s)
  else if delta_if_stay = delta_if_move ∧ delta_if_stay > 0 then
    moveGrant s askerId askedId objective_to_drop objective_to_give
  else
    pure (false, s)

/-- The per-teammate delta loop of the community-motivated branches of
variations 1-3: sum `p.currentTotal(test, object_is_team=False) - p.currentTotal()`
over the team's members other than `excludeId`. -/
def otherDeltas (s : State) (team : TeamSt) (excludeId : Nat) (testP : PlayerSt) :
    Except String Int :=
  team.members.foldlM
    (fun acc pid =>
      if pid = excludeId then pure acc
      else do
        let p ← getE (findPlayer s pid) "missing player"
        let d ← currentTotal s p (some (.player testP)) false false false none none none
        let c ← currentTotal s p none true false false none none none
        pure (acc + (d - c)))
    (0 : Int)

/-- CollaborationModel.variation_3.  `coin` resolves `choice(...)`:
in the community branch `coin = true` means `choice(["move","stay"]) == "stay"`,
in the self-interested equal branch `coin = true` means `choice(actions) == move`. -/
def variation_3 (s : State) (community_motivation : Bool) (coin : Bool)
    (aId bId : Nat) : Except String (Bool × State) := do
  let pa ← getE (findPlayer s aId) "missing player"
  let pb ← getE (findPlayer s bId) "missing player"
  let team_a ← getE (findTeam s.teams pa.teamId) "missing team"
  let team_b ← getE (findTeam s.teams pb.teamId) "missing team"
  let a_total_if_move ← currentTotal s pa (some (.team team_b)) true false false none none none
  let a_total_if_stay ← currentTotal s pa (some (.player pb)) false false false none none none
  let b_total_if_move ← currentTotal s pb (some (.team team_a)) true false false none none none
  let b_total_if_stay ← currentTotal s pb (some (.player pa)) false false false none none none
  let a_cur ← currentTotal s pa none true false false none none none
  let b_cur ← currentTotal s pb none true false false none none none
  let a_delta_if_move := a_total_if_move - a_cur
  let a_delta_if_stay := a_total_if_stay - a_cur
  let b_delta_if_move := b_total_if_move - b_cur
  let b_delta_if_stay := b_total_if_stay - b_cur
  if community_motivation then do
    let community_before ← communityTotal s
    let a_other_deltas ← otherDeltas s team_a aId pb
    let b_other_deltas ← otherDeltas s team_b bId pb
    let community_delta_a_to_b :=
      (community_before + a_delta_if_move + b_delta_if_stay + b_other_deltas) - community_before
    let community_delta_b_to_a :=
      (community_before + a_delta_if_stay + b_delta_if_move + a_other_deltas) - community_before
    if community_delta_a_to_b > 0 ∧ community_delta_a_to_b > community_delta_b_to_a then do
      let s1 ← joinTeam s aId team_b.index
      pure (true, s1)
    else if community_delta_b_to_a > 0 ∧ community_delta_b_to_a > community_delta_a_to_b then do
      let s1 ← joinTeam s bId team_a.index
      pure (true, s1)
    else if community_delta_a_to_b > 0 ∧ community_delta_a_to_b = community_delta_b_to_a then
      if coin then do
        let s1 ← joinTeam s bId team_a.index
        pure (true, s1)
      else do
        let s1 ← joinTeam s aId team_b.index
        pure (true, s1)
    else pure (false, s)
  else
    if a_delta_if_stay ≤ 0 ∧ a_delta_if_move ≤ 0 then pure (false, s)
    else if a_delta_if_move ≥ 0 ∧ a_delta_if_move > a_delta_if_stay then
      move s aId bId b_delta_if_move b_delta_if_stay none none
    else if a_delta_if_stay ≥ 0 ∧ a_delta_if_stay > a_delta_if_move then
      invite s aId bId b_delta_if_move b_delta_if_stay none none
    else if a_delta_if_stay = a_delta_if_move ∧ a_delta_if_move > 0 then
      if b_delta_if_move ≥ 0 ∧ b_delta_if_move > b_delta_if_stay then
        move s bId aId a_delta_if_move a_delta_if_stay none none
      else if b_delta_if_stay ≥ 0 ∧ b_delta_if_stay > b_delta_if_move then
        invite s bId aId a_delta_if_move a_delta_if_stay none none
      else if b_delta_if_stay = b_delta_if_move ∧ b_delta_if_move > 0 then
        if coin then move s bId aId a_delta_if_move a_delta_if_stay none none
        else invite s bId aId a_delta_if_move a_delta_if_stay none none
      else pure (false, s)
    else pure (false, s)

/-- CollaborationModel.variation_1 (drop-to-join).  `coin` as in `variation_3`. -/
def variation_1 (s : State) (community_motivation : Bool) (coin : Bool)
    (aId bId : Nat) : Except String (Bool × State) := do
  let pa ← getE (findPlayer s aId) "missing player"
  let pb ← getE (findPlayer s bId) "missing player"
  let team_a ← getE (findTeam s.teams pa.teamId) "missing team"
  let team_b ← getE (findTeam s.teams pb.teamId) "missing team"
  let joint_resources_if_b_joins_a := uniquify (teamResources s team_a ++ [pb.resource])
  let joint_resources_if_a_goes_to_b := uniquify (teamResources s team_b ++ [pa.resource])
  let a_best_if_stay := best_given_objective pa joint_resources_if_b_joins_a none
  let a_best_if_move := best_given_objective pa joint_resources_if_a_goes_to_b none
  let a_total_if_move ←
    currentTotal s pa (some (.team team_b)) true false false a_best_if_move none none
  let a_total_if_stay ←
    currentTotal s pa (some (.player pb)) false false false a_best_if_stay none none
  let b_total_if_move ← currentTotal s pb (some (.team team_a)) true false false none none none
  let b_total_if_stay ← currentTotal s pb (some (.player pa)) false false false none none none
  let a_cur ← currentTotal s pa none true false false none none none
  let b_cur ← currentTotal s pb none true false false none none none
  let a_delta_if_move := a_total_if_move - a_cur
  let a_delta_if_stay := a_total_if_stay - a_cur
  let b_delta_if_move := b_total_if_move - b_cur
  let b_delta_if_stay := b_total_if_stay - b_cur
  if community_motivation then do
    let community_before ← communityTotal s
    let a_other_deltas ← otherDeltas s team_a aId pb
    let b_other_deltas ← otherDeltas s team_b bId pb
    let community_delta_a_to_b :=
      (community_before + a_delta_if_move + b_delta_if_stay + b_other_deltas) - community_before
    let community_delta_b_to_a :=
      (community_before + a_delta_if_stay + b_delta_if_move + a_other_deltas) - community_before
    if community_delta_a_to_b > 0 ∧ community_delta_a_to_b > community_delta_b_to_a then do
      let s1 ← joinTeam s aId team_b.index
      let s2 ← match a_best_if_move with
        | some k => dropObjective s1 aId k
        | none => .error "KeyError"
      pure (true, s2)
    else if community_delta_b_to_a > 0 ∧ community_delta_b_to_a > community_delta_a_to_b then do
      let s1 ← joinTeam s bId team_a.index
      let s2 ← match a_best_if_stay with
        | some k => dropObjective s1 aId k
        | none => .error "KeyError"
      pure (true, s2)
    else if community_delta_a_to_b > 0 ∧ community_delta_a_to_b = community_delta_b_to_a then
      if coin then do
        let s1 ← joinTeam s bId team_a.index
        let s2 ← match a_best_if_stay with
          | some k => dropObjective s1 aId k
          | none => .error "KeyError"
        pure (true, s2)
      else do
        let s1 ← joinTeam s aId team_b.index
        let s2 ← match a_best_if_move with
          | some k => dropObjective s1 aId k
          | none => .error "KeyError"
        pure (true, s2)
    else pure (false, s)
  else
    if a_delta_if_stay ≤ 0 ∧ a_delta_if_move ≤ 0 then pure (false, s)
    else if a_delta_if_move ≥ 0 ∧ a_delta_if_move > a_delta_if_stay then
      move s aId bId b_delta_if_move b_delta_if_stay a_best_if_move none
    else if a_delta_if_stay ≥ 0 ∧ a_delta_if_stay > a_delta_if_move then
      invite s aId bId b_delta_if_move b_delta_if_stay a_best_if_stay none
    else if a_delta_if_stay = a_delta_if_move ∧ a_delta_if_move > 0 then
      if b_delta_if_move ≥ 0 ∧ b_delta_if_move > b_delta_if_stay then
        invite s aId bId b_delta_if_move b_delta_if_stay a_best_if_stay none
      else if b_delta_if_stay ≥ 0 ∧ b_delta_if_stay > b_delta_if_move then
        move s aId bId b_delta_if_move b_delta_if_stay a_best_if_move none
      else if b_delta_if_stay = b_delta_if_move ∧ b_delta_if_move > 0 then
        if coin then move s aId bId b_delta_if_move b_delta_if_stay a_best_if_move none
        else invite s aId bId b_delta_if_move b_delta_if_stay a_best_if_stay none
      else pure (false, s)
    else pure (false, s)

/-- CollaborationModel.variation_2 (pay-to-join).  `coin` as in `variation_3`. -/
def variation_2 (s : State) (community_motivation : Bool) (coin : Bool)
    (aId bId : Nat) : Except String (Bool × State) := do
  let pa ← getE (findPlayer s aId) "missing player"
  let pb ← getE (findPlayer s bId) "missing player"
  let team_a ← getE (findTeam s.teams pa.teamId) "missing team"
  let team_b ← getE (findTeam s.teams pb.teamId) "missing team"
  let joint_resources_if_b_joins_a := uniquify (teamResources s team_a ++ [pb.resource])
  let joint_resources_if_a_goes_to_b := uniquify (teamResources s team_b ++ [pa.resource])
  let a_best_if_stay := best_given_objective pa joint_resources_if_b_joins_a none
  let a_best_if_move := best_given_objective pa joint_resources_if_a_goes_to_b none
  let a_total_if_move ←
    currentTotal s pa (some (.team team_b)) true false false a_best_if_move none none
  let a_total_if_stay ←
    currentTotal s pa (some (.player pb)) false false false a_best_if_stay none none
  let b_total_if_move ←
    currentTotal s pb (some (.team team_a)) true false false none a_best_if_stay (some pa)
  let b_total_if_stay ←
    currentTotal s pb (some (.player pa)) false false false none a_best_if_move (some pa)
  let a_cur ← currentTotal s pa none true false false none none none
  let b_cur ← currentTotal s pb none true false false none none none
  let a_delta_if_move := a_total_if_move - a_cur
  let a_delta_if_stay := a_total_if_stay - a_cur
  let b_delta_if_move := b_total_if_move - b_cur
  let b_delta_if_stay := b_total_if_stay - b_cur
  if community_motivation then do
    let community_before ← communityTotal s
    let a_other_deltas ← otherDeltas s team_a aId pb
    let b_other_deltas ← otherDeltas s team_b bId pb
    let community_delta_a_to_b :=
      (community_before + a_delta_if_move + b_delta_if_stay + b_other_deltas) - community_before
    let community_delta_b_to_a :=
      (community_before + a_delta_if_stay + b_delta_if_move + a_other_deltas) - community_before
    if community_delta_a_to_b > 0 ∧ community_delta_a_to_b > community_delta_b_to_a then do
      let s1 ← match a_best_if_move with
        | some k => giveObjective s aId k bId
        | none => .error "KeyError"
      let s2 ← joinTeam s1 aId team_b.index
      pure (true, s2)
    else if community_delta_b_to_a > 0 ∧ community_delta_b_to_a > community_delta_a_to_b then do
      let s1 ← match a_best_if_stay with
        | some k => giveObjective s aId k bId
        | none => .error "KeyError"
      let s2 ← joinTeam s1 bId team_a.index
      pure (true, s2)
    else if community_delta_a_to_b > 0 ∧ community_delta_a_to_b = community_delta_b_to_a then
      if coin then do
        let s1 ← match a_best_if_stay with
          | some k => giveObjective s aId k bId
          | none => .error "KeyError"
        let s2 ← joinTeam s1 bId team_a.index
        pure (true, s2)
      else do
        let s1 ← match a_best_if_move with
          | some k => giveObjective s aId k bId
          | none => .error "KeyError"
        let s2 ← joinTeam s1 aId team_b.index
        pure (true, s2)
    else pure (false, s)
  else
    if a_delta_if_stay ≤ 0 ∧ a_delta_if_move ≤ 0 then pure (false, s)
    else if a_delta_if_move ≥ 0 ∧ a_delta_if_move > a_delta_if_stay then
      move s aId bId b_delta_if_move b_delta_if_stay none a_best_if_move
    else if a_delta_if_stay ≥ 0 ∧ a_delta_if_stay > a_delta_if_move then
      invite s aId bId b_delta_if_move b_delta_if_stay none a_best_if_stay
    else if a_delta_if_stay = a_delta_if_move ∧ a_delta_if_move > 0 then
      if b_delta_if_move ≥ 0 ∧ b_delta_if_move > b_delta_if_stay then
        invite s aId bId b_delta_if_move b_delta_if_stay none a_best_if_stay
      else if b_delta_if_stay ≥ 0 ∧ b_delta_if_stay > b_delta_if_move then
        move s aId bId b_delta_if_move b_delta_if_stay none a_best_if_move
      else if b_delta_if_stay = b_delta_if_move ∧ b_delta_if_move > 0 then
        if coin then move s aId bId b_delta_if_move b_delta_if_stay none a_best_if_move
        else invite s aId bId b_delta_if_move b_delta_if_stay none a_best_if_stay
      else pure (false, s)
    else pure (false, s)

/-- The delta loop of community-motivated variation 4: each teammate left
behind is rescored `alone=True`. -/
def aloneDeltas (s : State) (memberIds : List Nat) (aId bId : Nat) : Except String Int :=
  memberIds.foldlM
    (fun acc pid =>
      if pid = aId ∨ pid = bId then pure acc
      else do
        let p ← getE (findPlayer s pid) "missing player"
        let d ← currentTotal s p none true false true none none none
        let c ← currentTotal s p none true false false none none none
        pure (acc + (d - c)))
    (0 : Int)

/-- CollaborationModel.variation_4 (capped mutual consent): on success a
brand-new team with index `last_team_index() + 1` is appended and both
players join it. -/
def variation_4 (s : State) (community_motivation : Bool) (aId bId : Nat) :
    Except String (Bool × State) := do
  let pa ← getE (findPlayer s aId) "missing player"
  let pb ← getE (findPlayer s bId) "missing player"
  let team_a ← getE (findTeam s.teams pa.teamId) "missing team"
  let team_b ← getE (findTeam s.teams pb.teamId) "missing team"
  let a_current ← currentTotal s pa none true false false none none none
  let b_current ← currentTotal s pb none true false false none none none
  let a_new_team ← currentTotal s pa (some (.player pb)) false true false none none none
  let b_new_team ← currentTotal s pb (some (.player pa)) false true false none none none
  let a_delta_if_new_team := a_new_team - a_current
  let b_delta_if_new_team := b_new_team - b_current
  let merge_occurred ←
    if community_motivation then do
      let community_before ← communityTotal s
      let other_deltas ← aloneDeltas s (team_a.members ++ team_b.members) aId bId
      let community_delta_new_team :=
        (community_before + a_delta_if_new_team + b_delta_if_new_team + other_deltas)
          - community_before
      pure (decide (community_delta_new_team > 0))
    else do
      let m1 : Bool :=
        if a_delta_if_new_team > 0 then (if b_delta_if_new_team > 0 then true else false)
        else false
      let m2 : Bool :=
        if m1 = false then
          (if b_delta_if_new_team > 0 then
            (if a_delta_if_new_team > 0 then true else false)
          else false)
        else m1
      pure m2
  if merge_occurred then do
    let newIdx := lastTeamIndex s + 1
    let s1 := addTeam s newIdx
    let s2 ← joinTeam s1 aId newIdx
    let s3 ← joinTeam s2 bId newIdx
    pure (true, s3)
  else pure (false, s)

/-- The generator `pairs(lst)` walked with `first` and `prev` bound: yields
`(prev, item)` along the list and finally `(item, first)`. -/
def pairsGo {α : Type} (first : α) (prev : α) : List α → List (α × α)
  | [] => []
  | [x] => [(prev, x), (x, first)]
  | x :: y :: xs => (prev, x) :: pairsGo first x (y :: xs)

/-- The helper `pairs(lst)`.  On `[]` the initial `next()` raises
StopIteration, which a generator turns into an empty sequence; on a
one-element list the final `yield item, first` hits an unbound name, so the
model returns `none` there. -/
def pairs {α : Type} : List α → Option (List (α × α))
  | [] => some []
  | [_] => none
  | x :: y :: xs => some (pairsGo x x (y :: xs))

/-- The cycle underlying `create_distribution_ratios`: all low-priority
categories once, then the high-priority categories repeated `rep` times
(Python `prop_high * ratio` repeats the whole string). -/
def create_distribution_cycle {α : Type} (prop_low prop_high : List α) (rep : Nat) : List α :=
  prop_low ++ (List.replicate rep prop_high).flatten

/-- `islice(r, n)` over the infinite repetition of `cycle`: the first `n`
elements.  `d` is an arbitrary default, used only when the cycle is empty
(where the Python generator would never yield and islice would not return). -/
def sampleStream {α : Type} (cycle : List α) (d : α) (n : Nat) : List α :=
  (List.range n).map (fun i => cycle.getD (i % cycle.length) d)

/-- Occurrence count of a category in the sampled list (one `Counter` cell). -/
def countKey {α : Type} [DecidableEq α] (l : List α) (a : α) : Nat :=
  l.countP (fun x => decide (x = a))

/-- Sum of the per-category quantities of a sampled pool
(`Counter(...)` values summed). -/
def poolSum {α : Type} [DecidableEq α] (sampled : List α) : Nat :=
  (sampled.dedup.map (fun c => countKey sampled c)).sum

/-- ResourcePool: sample `players` resources from the low/high cycle. -/
def resourcePoolSample (divided_high divided_low : List Char) (rep players : Nat) :
    List Char :=
  sampleStream (create_distribution_cycle divided_low divided_high rep) 'A' players

/-- Turning a resource letter into its two objective categories
(`a1` high value, `a2` low value), as `(lower-case letter, subscript)`. -/
def objective_names (letters : List Char) : List (Char × Nat) :=
  letters.flatMap (fun c => [(c.toLower, 1), (c.toLower, 2)])

/-- ObjectivePool's regrouping: first halves of the high and low resource
letters become the prevalent group, the remaining halves the rare group. -/
def objectivePoolGroups (list_high list_low : List Char) :
    (List (Char × Nat)) × (List (Char × Nat)) :=
  let temp1 := list_high.length / 2
  let temp2 := list_low.length / 2
  let new_high := list_high.take temp1 ++ list_low.take temp2
  let new_low := list_high.drop temp1 ++ list_low.drop temp2
  (objective_names new_high, objective_names new_low)

/-- ObjectivePool: sample `num_objs` objective categories. -/
def objectivePoolSample (list_high list_low : List Char) (rep num_objs : Nat) :
    List (Char × Nat) :=
  let g := objectivePoolGroups list_high list_low
  sampleStream (create_distribution_cycle g.2 g.1 rep) ('a', 1) num_objs

/-- ObjectivePool.table: one `Obj` per sampled instance, the value decided
solely by the subscript (`value_high` iff subscript 1). -/
def expandTable (sampled : List (Char × Nat)) (value_high value_low : Int) : List Obj :=
  sampled.dedup.flatMap (fun c =>
    List.replicate (countKey sampled c)
      { letter := c.1, sub := c.2, value := if c.2 = 1 then value_high else value_low })

/-- The convergence loop of run(), abstracted over the per-round counts of
successful actions: after each round the stale counter increments on a
merge-free round and resets otherwise, and the loop breaks exactly when the
counter equals the threshold.  Returns the number of rounds executed on
break, `none` when the given rounds are exhausted while still looping. -/
def runLoopAux (threshold : Int) (c : Nat) : List Nat → Option Nat
  | [] => none
  | m :: ms =>
    let c' := if m = 0 then c + 1 else 0
    if (c' : Int) = threshold then some 1
    else (runLoopAux threshold c' ms).map (fun k => k + 1)

def runLoop (threshold : Int) (rounds : List Nat) : Option Nat :=
  runLoopAux threshold 0 rounds

/-- The `__init__` clamp: for variation 3 the configured
`faux_pareto_rounds_without_merges` is unconditionally replaced by 5. -/
def effective_threshold (variation : Nat) (t : Int) : Int :=
  if variation = 3 then 5 else t

/-- Does `l` contain `T` consecutive zeros starting at some position? -/
def takeAllZero (k : Nat) (l : List Nat) : Bool :=
  decide (k ≤ l.length) && (l.take k).all (fun m => m == 0)

def hasWindow (T : Nat) : List Nat → Bool
  | [] => false
  | m :: xs => takeAllZero T (m :: xs) || hasWindow T xs

/-- The fields of the CSV row of run() relevant to variation 0. -/
structure RunStats where
  rounds : Nat
  encounters : Rat
  switches : Nat
  switch_ratio : Rat
  social_value_before : Int
  social_value_after : Int
deriving DecidableEq

/-- run() in variation 0: the main loop is skipped entirely (zero rounds),
`total_encounters` is set to the float sentinel 0.0001 (modelled as the
rational 1/10000) so that the exported switch ratio has a nonzero
denominator, and the before/after social values are read off the untouched
state. -/
def runVariation0 (s : State) : Except String RunStats := do
  let before ← communityTotal s
  let total_encounters : Rat := 1 / 10000
  let after ← communityTotal s
  pure { rounds := 0, encounters := total_encounters, switches := 0,
         switch_ratio := (0 : Rat) / total_encounters,
         social_value_before := before, social_value_after := after }

/-- The team back-reference of a player, for readable claim statements. -/
def teamIdOf (s : State) (pid : Nat) : Option Nat :=
  (findPlayer s pid).map (fun p => p.teamId)

/-- Number of objective instances a player currently holds. -/
def objCount (s : State) (pid : Nat) : Nat :=
  ((findPlayer s pid).map (fun p => p.objectives.length)).getD 0

/-- Total number of objective instances held across all players. -/
def heldCount (s : State) : Nat :=
  (s.players.map (fun p => p.objectives.length)).sum

/-
Concrete scenario for claims C1 and C2: player 0 (resource A, holding b1 and
c1) shares team 0 with player 2 (resource C); player 1 (resource B, holding
a1) is alone on team 1.  Then for player 0 "stay" (player 1 joining team 0)
is worth +20 and "move" +0, while player 1 is indifferent (+20 both ways),
so the self-interested protocols take the invite path and the invitee
consents through the equal-deltas branch.
-/

def v3DemoState : State :=
  { players := [
      { id := 0, resource := 'A',
        objectives := [(1, ⟨'b', 1, 20⟩), (2, ⟨'c', 1, 20⟩)], teamId := 0 },
      { id := 1, resource := 'B', objectives := [(3, ⟨'a', 1, 20⟩)], teamId := 1 },
      { id := 2, resource := 'C', objectives := [], teamId := 0 }],
    teams := [{ index := 0, members := [0, 2] }, { index := 1, members := [1] }],
    dropped := [], traded := [] }

/-- C1: FALSIFIED BY THE CODE (code bug).  In `v3DemoState` the initiator's
stay delta (+20) is nonnegative and strictly greater than its move delta
(0), and the responder consents (its own move delta +20 equals its stay
delta and is positive, the granted branch of `invite`).  The call reports a
state-changed outcome `true`, yet the final state is *identical* to the
initial one — `invite` executes `invitee.joinTeam(invitee.team)`, so the
responder re-joins its own team and the two players remain on different
teams, contrary to the claim that the responder becomes a member of the
initiator's team. -/
theorem c1_invite_rejoins_own_team :
    variation_3 v3DemoState false false 0 1 = .ok (true, v3DemoState) ∧
    teamIdOf v3DemoState 0 = some 0 ∧ teamIdOf v3DemoState 1 = some 1 := by
  decide

/-- State for claim C2: as `v3DemoState` but player 0 also holds the
worthless low-value objective d2 (global index 3), the one
`best_given_objective` selects as the drop. -/
def v1DemoState : State :=
  { players := [
      { id := 0, resource := 'A',
        objectives := [(1, ⟨'b', 1, 20⟩), (2, ⟨'c', 1, 20⟩), (3, ⟨'d', 2, 10⟩)],
        teamId := 0 },
      { id := 1, resource := 'B', objectives := [(4, ⟨'a', 1, 20⟩)], teamId := 1 },
      { id := 2, resource := 'C', objectives := [], teamId := 0 }],
    teams := [{ index := 0, members := [0, 2] }, { index := 1, members := [1] }],
    dropped := [], traded := [] }

/-- The state `variation_1` produces from `v1DemoState`: only player 0's
holdings shrink (d2 is dropped); team membership is untouched. -/
def v1DemoAfter : State :=
  { players := [
      { id := 0, resource := 'A',
        objectives := [(1, ⟨'b', 1, 20⟩), (2, ⟨'c', 1, 20⟩)], teamId := 0 },
      { id := 1, resource := 'B', objectives := [(4, ⟨'a', 1, 20⟩)], teamId := 1 },
      { id := 2, resource := 'C', objectives := [], teamId := 0 }],
    teams := [{ index := 0, members := [0, 2] }, { index := 1, members := [1] }],
    dropped := [⟨'d', 2, 10⟩], traded := [] }

/-- C2, counterexample.  A successful variation-1 negotiation (outcome
`true`) in which the cost is paid by player 0, who does **not** change team
membership (indeed nobody does: the invite-consent path only re-joins the
invitee to its own team), refuting "the cost is applied ... only to the
player who actually changes team membership". -/
theorem c2_counterexample :
    variation_1 v1DemoState false false 0 1 = .ok (true, v1DemoAfter) ∧
    teamIdOf v1DemoAfter 0 = teamIdOf v1DemoState 0 ∧
    teamIdOf v1DemoAfter 1 = teamIdOf v1DemoState 1 ∧
    v1DemoAfter.teams = v1DemoState.teams ∧
    objCount v1DemoState 0 = 3 ∧ objCount v1DemoAfter 0 = 2 := by
  decide

/-- State for claim C8: player 0 holds the objective with global table index
0 (and index 5), so both cost arguments of `invite` can be supplied with the
drop argument equal to 0. -/
def c8State : State :=
  { players := [
      { id := 0, resource := 'A',
        objectives := [(0, ⟨'d', 2, 10⟩), (5, ⟨'b', 1, 20⟩)], teamId := 0 },
      { id := 1, resource := 'B', objectives := [], teamId := 1 }],
    teams := [{ index := 0, members := [0] }, { index := 1, members := [1] }],
    dropped := [], traded := [] }

def c8After : State :=
  { players := [
      { id := 0, resource := 'A', objectives := [(0, ⟨'d', 2, 10⟩)], teamId := 0 },
      { id := 1, resource := 'B', objectives := [(5, ⟨'b', 1, 20⟩)], teamId := 1 }],
    teams := [{ index := 0, members := [0] }, { index := 1, members := [1] }],
    dropped := [], traded := [⟨'b', 1, 20⟩] }

def c8PlayerA : PlayerSt :=
  { id := 0, resource := 'A',
    objectives := [(0, ⟨'d', 2, 10⟩), (5, ⟨'b', 1, 20⟩)], teamId := 0 }

def c8PlayerB : PlayerSt := { id := 1, resource := 'B', objectives := [], teamId := 1 }

/-- C8: FALSIFIED BY THE CODE (code bug) on the invite/move half.  The three
`currentTotal` argument checks do raise (first, third and fourth conjuncts),
but `invite` checks `if (objective_to_drop and objective_to_give):` with
Python truthiness, so supplying both modifiers with the drop index 0 raises
nothing: the call proceeds, silently ignores the drop, performs the give,
reports success, and the state has changed — the opposite of "aborts
immediately with no state change, never silently picking one
interpretation". -/
theorem c8_truthiness_defeats_exclusivity_guard :
    invite c8State 0 1 1 0 (some 0) (some 5) = .ok (true, c8After) ∧
    c8After ≠ c8State ∧
    currentTotal c8State c8PlayerA (some (.player c8PlayerB)) true true false none none none
      = .error "new_team on a team object or without a test_object" ∧
    currentTotal c8State c8PlayerA none false true false none none none
      = .error "new_team on a team object or without a test_object" ∧
    currentTotal c8State c8PlayerA none true false false none (some 5) none
      = .error "giver without given_objective" := by
  decide

/-
### C5: variation 0
-/

/-- C5, amended form: variation 0 runs zero rounds, reports the sentinel
1/10000 (the float 0.0001) as the encounter count — a nonzero value guarding
the switch-ratio denominator, so the switch ratio is 0 — and reports equal
social values before and after. -/
theorem c5_variation0_report (s : State) (r : RunStats)
    (h : runVariation0 s = .ok r) :
    r.rounds = 0 ∧ r.encounters = 1 / 10000 ∧ r.encounters ≠ 0 ∧
    r.switch_ratio = 0 ∧ r.social_value_before = r.social_value_after := by
  rw [runVariation0] at h
  cases hc : communityTotal s with
  | error e =>
    rw [hc] at h
    exact Except.noConfusion h
  | ok v =>
    rw [hc] at h
    have h2 : (Except.ok
        ({ rounds := 0, encounters := 1 / 10000, switches := 0,
           switch_ratio := (0 : Rat) / (1 / 10000),
           social_value_before := v, social_value_after := v } : RunStats)
        : Except String RunStats) = .ok r := h
    injection h2 with h3
    subst h3
    refine ⟨rfl, rfl, by norm_num, by norm_num, rfl⟩

def c5State : State :=
  { players := [{ id := 0, resource := 'A', objectives := [(0, ⟨'a', 1, 20⟩)], teamId := 0 }],
    teams := [{ index := 0, members := [0] }],
    dropped := [], traded := [] }

def c5Stats : RunStats :=
  { rounds := 0, encounters := 1 / 10000, switches := 0,
    switch_ratio := (0 : Rat) / (1 / 10000),
    social_value_before := 20, social_value_after := 20 }

/-- C5, counterexample: the reported encounters value of a variation-0 run
is 1/10000 (the float sentinel 0.0001), not 0 as the claim states. -/
theorem c5_counterexample :
    runVariation0 c5State = .ok c5Stats ∧ c5Stats.encounters ≠ 0 := by
  constructor
  · rfl
  · show (1 / 10000 : Rat) ≠ 0
    norm_num

/-- C5, witness for `c5_variation0_report` at the concrete state. -/
theorem c5_witness :
    c5Stats.rounds = 0 ∧ c5Stats.encounters = 1 / 10000 ∧ c5Stats.encounters ≠ 0 ∧
    c5Stats.switch_ratio = 0 ∧ c5Stats.social_value_before = c5Stats.social_value_after :=
  c5_variation0_report c5State c5Stats (by rfl)

/-
### C3: the pairing produced by `pairs`
-/

theorem pairsGo_map_fst {α : Type} (f : α) :
    ∀ (xs : List α) (p : α), xs ≠ [] → (pairsGo f p xs).map Prod.fst = p :: xs := by
  intro xs
  induction xs with
  | nil => intro p h; exact absurd rfl h
  | cons x xs ih =>
    intro p _
    cases xs with
    | nil => simp [pairsGo]
    | cons y ys =>
      simp only [pairsGo, List.map_cons, List.cons.injEq, true_and]
      exact ih x (by simp)

theorem pairsGo_map_snd {α : Type} (f : α) :
    ∀ (xs : List α) (p : α), xs ≠ [] → (pairsGo f p xs).map Prod.snd = xs ++ [f] := by
  intro xs
  induction xs with
  | nil => intro p h; exact absurd rfl h
  | cons x xs ih =>
    intro p _
    cases xs with
    | nil => simp [pairsGo]
    | cons y ys =>
      simp only [pairsGo, List.map_cons, List.cons_append, List.cons.injEq, true_and]
      exact ih x (by simp)

/-- C3, counterexample.  On the shuffled player list `[0, 1, 2, 3]` the
generator yields the four cyclic pairs `(0,1) (1,2) (2,3) (3,0)`: four pairs
for four players (not 4/2 = 2), and player 1 occurs in two distinct pairs —
the pairing is not a disjoint partition into N/2 pairs. -/
theorem c3_counterexample :
    pairs [0, 1, 2, 3] = some [(0, 1), (1, 2), (2, 3), (3, 0)] ∧
    ([(0, 1), (1, 2), (2, 3), (3, 0)] : List (Nat × Nat)).length = 4 ∧
    ¬ (4 : Nat) = 4 / 2 ∧
    (([(0, 1), (1, 2), (2, 3), (3, 0)] : List (Nat × Nat)).countP
      (fun pr => decide (pr.1 = 1) || decide (pr.2 = 1))) = 2 := by
  decide

/-- C3, amended form.  For every shuffled player list (no duplicates, at
least two players), `pairs` yields one pair per player — the cyclic
adjacent pairing — in which every player occurs exactly once as the first
component and exactly once as the second component (hence in two pairs of
the round, not one), and nobody is discarded. -/
theorem c3_pairs_cyclic {α : Type} [DecidableEq α] (l : List α)
    (hn : l.Nodup) (h2 : 2 ≤ l.length) :
    ∃ P, pairs l = some P ∧ P.length = l.length ∧
      ∀ x ∈ l, (P.map Prod.fst).count x = 1 ∧ (P.map Prod.snd).count x = 1 := by
  match l, hn, h2 with
  | [], _, h2 => simp at h2
  | [a], _, h2 => simp at h2
  | a :: b :: xs, hn, _ =>
    refine ⟨pairsGo a a (b :: xs), rfl, ?_, ?_⟩
    · have hf := pairsGo_map_fst a (b :: xs) a (by simp)
      have : ((pairsGo a a (b :: xs)).map Prod.fst).length = (a :: b :: xs).length := by
        rw [hf]
      simpa using this
    · intro x hx
      constructor
      · rw [pairsGo_map_fst a (b :: xs) a (by simp)]
        exact List.count_eq_one_of_mem hn hx
      · rw [pairsGo_map_snd a (b :: xs) a (by simp)]
        have hperm : ((b :: xs) ++ [a]).Perm (a :: b :: xs) := by
          simpa using (@List.perm_append_comm _ (b :: xs) [a])
        rw [hperm.count_eq]
        exact List.count_eq_one_of_mem hn hx

/-- C3, witness: the amended statement applied to the concrete shuffled
list `[3, 0, 2, 1]`. -/
theorem c3_witness :
    ∃ P, pairs [3, 0, 2, 1] = some P ∧ P.length = 4 ∧
      ∀ x ∈ [3, 0, 2, 1], (P.map Prod.fst).count x = 1 ∧ (P.map Prod.snd).count x = 1 :=
  c3_pairs_cyclic [3, 0, 2, 1] (by decide) (by decide)

/-
### C4: the convergence rule
-/

theorem takeAllZero_mono (k K : Nat) (h : k ≤ K) {l : List Nat}
    (hK : takeAllZero K l = true) : takeAllZero k l = true := by
  simp only [takeAllZero, Bool.and_eq_true, decide_eq_true_eq, List.all_eq_true] at hK ⊢
  obtain ⟨hlen, hall⟩ := hK
  refine ⟨le_trans h hlen, ?_⟩
  intro m hm
  apply hall
  have : l.take k = (l.take K).take k := by
    rw [List.take_take, Nat.min_eq_left h]
  rw [this] at hm
  exact List.take_subset _ _ hm

theorem takeAllZero_nil_eq_false {T : Nat} (hT : 1 ≤ T) :
    takeAllZero T ([] : List Nat) = false := by
  have : ¬ (T ≤ 0) := by omega
  simp [takeAllZero, this]

theorem takeAllZero_cons_ne {T m : Nat} {xs : List Nat} (hT : 1 ≤ T) (hm : m ≠ 0) :
    takeAllZero T (m :: xs) = false := by
  obtain ⟨k, hk⟩ : ∃ k, T = k + 1 := ⟨T - 1, by omega⟩
  subst hk
  simp only [takeAllZero, List.take_succ_cons, List.all_cons, Bool.and_eq_false_iff]
  right
  simp [hm]

theorem takeAllZero_cons_zero {T : Nat} {xs : List Nat} (hT : 1 ≤ T) :
    takeAllZero T (0 :: xs) = takeAllZero (T - 1) xs := by
  obtain ⟨k, hk⟩ : ∃ k, T = k + 1 := ⟨T - 1, by omega⟩
  subst hk
  simp [takeAllZero, List.take_succ_cons, Nat.add_le_add_iff_right]

theorem hasWindow_of_takeAllZero {T : Nat} (hT : 1 ≤ T) {l : List Nat}
    (h : takeAllZero T l = true) : hasWindow T l = true := by
  cases l with
  | nil => rw [takeAllZero_nil_eq_false hT] at h; exact absurd h (by simp)
  | cons m xs => simp [hasWindow, h]

theorem runLoopAux_isSome (T : Nat) (hT : 1 ≤ T) :
    ∀ (l : List Nat) (c : Nat), c < T →
      ((runLoopAux (T : Int) c l).isSome = (takeAllZero (T - c) l || hasWindow T l)) := by
  intro l
  induction l with
  | nil =>
    intro c hc
    rw [show runLoopAux (T : Int) c [] = none from rfl]
    rw [takeAllZero_nil_eq_false (by omega), hasWindow]
    rfl
  | cons m xs ih =>
    intro c hc
    by_cases hm : m = 0
    · subst hm
      show (if ((c + 1 : Nat) : Int) = (T : Int) then some 1
            else (runLoopAux (T : Int) (c + 1) xs).map (fun k => k + 1)).isSome
          = (takeAllZero (T - c) (0 :: xs) || hasWindow T (0 :: xs))
      have hsplit : takeAllZero (T - c) (0 :: xs) = takeAllZero (T - c - 1) xs :=
        takeAllZero_cons_zero (by omega)
      by_cases hbreak : c + 1 = T
      · rw [if_pos (by exact_mod_cast hbreak)]
        have hTc : T - c = 1 := by omega
        have : takeAllZero (T - c) (0 :: xs) = true := by
          rw [hsplit, hTc]
          simp [takeAllZero]
        rw [this]
        rfl
      · rw [if_neg (fun hcontra => hbreak (by exact_mod_cast hcontra))]
        rw [Option.isSome_map']
        rw [ih (c + 1) (by omega)]
        have habs : hasWindow T (0 :: xs) = (takeAllZero T (0 :: xs) || hasWindow T xs) := by
          rw [hasWindow]
        rw [hsplit, habs]
        have heq : T - (c + 1) = T - c - 1 := by omega
        rw [heq]
        cases hw : takeAllZero T (0 :: xs) with
        | false => simp
        | true =>
          have h1 : takeAllZero (T - c - 1) xs = true := by
            have h2 := takeAllZero_mono (T - c) T (by omega) hw
            rw [hsplit] at h2
            exact h2
          simp [h1]
    · have hc0 : (if m = 0 then c + 1 else 0) = 0 := by simp [hm]
      have hrw : runLoopAux (T : Int) c (m :: xs)
          = (if ((0 : Nat) : Int) = (T : Int) then some 1
             else (runLoopAux (T : Int) 0 xs).map (fun k => k + 1)) := by
        rw [runLoopAux]
        rw [hc0]
      rw [hrw]
      rw [if_neg (fun hcontra => by
        have : (0 : Nat) = T := by exact_mod_cast hcontra
        omega)]
      rw [Option.isSome_map']
      rw [ih 0 (by omega)]
      rw [takeAllZero_cons_ne (by omega) hm]
      rw [show hasWindow T (m :: xs) = (takeAllZero T (m :: xs) || hasWindow T xs) from rfl]
      rw [takeAllZero_cons_ne hT hm]
      rw [Nat.sub_zero]
      cases hw : takeAllZero T xs with
      | false => simp
      | true => simp [hasWindow_of_takeAllZero hT hw]

/-- C4, amended form.  (1-2) For variation 3 the configured threshold is
always replaced by the constant 5, whatever its value; every other
variation keeps its configured value.  (3) For every positive threshold T,
the loop terminates iff the abstract round outcomes contain T consecutive
merge-free rounds — termination happens exactly when the stale-round
counter reaches the threshold and there is no other exit.  (4-5) A
threshold of 0 does **not** converge immediately: while rounds stay
merge-free the loop never breaks, and it breaks (after one full round of
variation logic) as soon as a round produces a merge. -/
theorem c4_convergence :
    (∀ t : Int, effective_threshold 3 t = 5) ∧
    (∀ (v : Nat) (t : Int), v ≠ 3 → effective_threshold v t = t) ∧
    (∀ (T : Nat), 1 ≤ T → ∀ l : List Nat, (runLoop (T : Int) l).isSome = hasWindow T l) ∧
    (∀ l : List Nat, (∀ m ∈ l, m = 0) → runLoop 0 l = none) ∧
    (∀ (m : Nat) (l : List Nat), m ≠ 0 → runLoop 0 (m :: l) = some 1) := by
  refine ⟨fun t => rfl, fun v t hv => by simp [effective_threshold, hv], ?_, ?_, ?_⟩
  · intro T hT l
    have h := runLoopAux_isSome T hT l 0 (by omega)
    rw [runLoop, h, Nat.sub_zero]
    cases l with
    | nil => rw [takeAllZero_nil_eq_false hT]; rfl
    | cons m xs =>
      rw [show hasWindow T (m :: xs) = (takeAllZero T (m :: xs) || hasWindow T xs) from rfl]
      cases hw : takeAllZero T (m :: xs) <;> simp
  · intro l hall
    rw [runLoop]
    suffices h : ∀ c : Nat, runLoopAux 0 c l = none by exact h 0
    induction l with
    | nil => intro c; rfl
    | cons m xs ih =>
      intro c
      have hm : m = 0 := hall m (by simp)
      subst hm
      show (if ((c + 1 : Nat) : Int) = (0 : Int) then some 1
            else (runLoopAux 0 (c + 1) xs).map (fun k => k + 1)) = none
      rw [if_neg (fun hcontra => by
        have : c + 1 = 0 := by exact_mod_cast hcontra
        omega)]
      rw [ih (fun x hx => hall x (by simp [hx])) (c + 1)]
      rfl
  · intro m l hm
    have hc0 : (if m = 0 then 0 + 1 else 0) = 0 := by simp [hm]
    rw [runLoop, runLoopAux, hc0]
    rw [if_pos (by exact_mod_cast rfl)]

/-- C4, counterexample.  The valid threshold 10 for variation 3 is silently
overridden to 5 (the claim allows this only for negative/invalid values),
and with threshold 0 the loop does not converge immediately: it survives a
merge-free round (`none` = still running) and instead breaks only after a
full round that produced a merge. -/
theorem c4_counterexample :
    effective_threshold 3 10 = 5 ∧ ¬ (5 : Int) = 10 ∧
    runLoop 0 [0] = none ∧ runLoop 0 [3] = some 1 := by
  decide

/-- C4, witness for `c4_convergence` at concrete inputs. -/
theorem c4_witness :
    effective_threshold 3 (-7) = 5 ∧ effective_threshold 1 (-7) = -7 ∧
    (runLoop ((2 : Nat) : Int) [1, 0, 0]).isSome = hasWindow 2 [1, 0, 0] ∧
    runLoop 0 [0, 0, 0] = none ∧ runLoop 0 [2] = some 1 :=
  ⟨c4_convergence.1 (-7), c4_convergence.2.1 1 (-7) (by decide),
   c4_convergence.2.2.1 2 (by decide) [1, 0, 0],
   c4_convergence.2.2.2.1 [0, 0, 0] (by decide),
   c4_convergence.2.2.2.2 2 [] (by decide)⟩

/-
### C7: pool sizes and objective values
-/

theorem sampleStream_length {α : Type} (cycle : List α) (d : α) (n : Nat) :
    (sampleStream cycle d n).length = n := by
  simp [sampleStream]

theorem countKey_eq_count {α : Type} [DecidableEq α] (l : List α) (a : α) :
    countKey l a = @List.count α instBEqOfDecidableEq a l := rfl

theorem poolSum_eq_length {α : Type} [DecidableEq α] (sampled : List α) :
    poolSum sampled = sampled.length := by
  rw [poolSum]
  have h : (fun c => countKey sampled c)
      = fun c => @List.count α instBEqOfDecidableEq c sampled := by
    funext c
    exact countKey_eq_count sampled c
  rw [h]
  exact List.sum_map_count_dedup_eq_length sampled

theorem expandTable_length (sampled : List (Char × Nat)) (vh vl : Int) :
    (expandTable sampled vh vl).length = sampled.length := by
  rw [expandTable, List.length_flatMap]
  have h : (List.length ∘ fun c : Char × Nat =>
      List.replicate (countKey sampled c)
        ({ letter := c.1, sub := c.2, value := if c.2 = 1 then vh else vl } : Obj))
      = fun c => @List.count (Char × Nat) instBEqOfDecidableEq c sampled := by
    funext c
    simp [countKey_eq_count]
  rw [h]
  exact List.sum_map_count_dedup_eq_length sampled

theorem expandTable_value {sampled : List (Char × Nat)} {vh vl : Int} (hne : vh ≠ vl)
    {o : Obj} (ho : o ∈ expandTable sampled vh vl) : (o.value = vh ↔ o.sub = 1) := by
  rw [expandTable] at ho
  rw [List.mem_flatMap] at ho
  obtain ⟨c, -, hrep⟩ := ho
  have := List.eq_of_mem_replicate hrep
  subst this
  by_cases h1 : c.2 = 1 <;> simp [h1, hne, Ne.symm hne]

/-- C7: for every configuration (any random high/low letter split, any
positive distribution cycle, i.e. every configuration where the Python
generator terminates), the resource-pool per-category quantities sum to the
player count, the objective-pool per-category quantities sum to
players × objectives-per-player (and the table holds that many instances),
and — whenever the two configured values are distinct, which is what makes
"high value" meaningful — a generated instance's value is `value_high` iff
its category's subscript is 1. -/
theorem c7_pool_sums (dh dl : List Char) (rep players : Nat)
    (lh ll : List Char) (rep2 numObjs : Nat) (vh vl : Int) (hne : vh ≠ vl) :
    poolSum (resourcePoolSample dh dl rep players) = players ∧
    poolSum (objectivePoolSample lh ll rep2 numObjs) = numObjs ∧
    (expandTable (objectivePoolSample lh ll rep2 numObjs) vh vl).length = numObjs ∧
    ∀ o ∈ expandTable (objectivePoolSample lh ll rep2 numObjs) vh vl,
      (o.value = vh ↔ o.sub = 1) := by
  refine ⟨?_, ?_, ?_, ?_⟩
  · rw [resourcePoolSample, poolSum_eq_length, sampleStream_length]
  · rw [objectivePoolSample, poolSum_eq_length, sampleStream_length]
  · rw [objectivePoolSample, expandTable_length, sampleStream_length]
  · intro o ho
    exact expandTable_value hne ho

/-- C7, witness at the documented example configuration: 16 players, four
resources split high = AB / low = CD with distribution 3, 5 objectives per
player with distribution 3, values 20/10. -/
theorem c7_witness :
    poolSum (resourcePoolSample ['A', 'B'] ['C', 'D'] 3 16) = 16 ∧
    poolSum (objectivePoolSample ['A', 'B'] ['C', 'D'] 3 80) = 80 ∧
    (expandTable (objectivePoolSample ['A', 'B'] ['C', 'D'] 3 80) 20 10).length = 80 ∧
    ∀ o ∈ expandTable (objectivePoolSample ['A', 'B'] ['C', 'D'] 3 80) 20 10,
      (o.value = 20 ↔ o.sub = 1) :=
  c7_pool_sums ['A', 'B'] ['C', 'D'] 3 16 ['A', 'B'] ['C', 'D'] 3 80 20 10 (by decide)

/-
### C10: best_given_objective always returns a held index
-/

theorem find?_map_fst_mem {l : List (Nat × Obj)} {p : (Nat × Obj) → Bool} {k : Nat}
    (h : (l.find? p).map (fun e => e.1) = some k) : k ∈ l.map Prod.fst := by
  cases hf : l.find? p with
  | none => rw [hf] at h; exact absurd h (by simp)
  | some e =>
    rw [hf] at h
    simp only [Option.map_some', Option.some.injEq] at h
    subst h
    exact List.mem_map_of_mem Prod.fst (List.mem_of_find?_eq_some hf)

theorem pyKeep_mem (a b : Option Nat) (P Q : Nat → Prop)
    (ha : ∀ j, a = some j → P j) (hb : ∀ j, b = some j → Q j) :
    ∀ j, pyKeep a b = some j → P j ∨ Q j := by
  intro j hj
  rw [pyKeep.eq_def] at hj
  split at hj
  · exact Or.inl (ha j hj)
  · cases hcb : b with
    | some k =>
      rw [hcb] at hj
      exact Or.inr (hb j (by rw [hcb]; exact hj))
    | none =>
      rw [hcb] at hj
      exact Or.inl (ha j hj)

theorem bgoTargeted_mem {wl wh gl : List (Nat × Obj)} {r : Char} {k : Nat}
    (h : bgoTargeted wl wh gl r = some k) :
    k ∈ wl.map Prod.fst ∨ k ∈ wh.map Prod.fst ∨ k ∈ gl.map Prod.fst := by
  rw [bgoTargeted] at h
  have step1 := pyKeep_mem
    ((wl.find? (fun e => e.2.letter.toUpper = r)).map (fun e => e.1))
    ((wh.find? (fun e => e.2.letter.toUpper = r)).map (fun e => e.1))
    (fun j => j ∈ wl.map Prod.fst) (fun j => j ∈ wh.map Prod.fst)
    (fun j hj => find?_map_fst_mem hj) (fun j hj => find?_map_fst_mem hj)
  have step2 := pyKeep_mem
    (pyKeep ((wl.find? (fun e => e.2.letter.toUpper = r)).map (fun e => e.1))
      ((wh.find? (fun e => e.2.letter.toUpper = r)).map (fun e => e.1)))
    ((gl.find? (fun e => e.2.letter.toUpper = r)).map (fun e => e.1))
    (fun j => j ∈ wl.map Prod.fst ∨ j ∈ wh.map Prod.fst)
    (fun j => j ∈ gl.map Prod.fst)
    step1 (fun j hj => find?_map_fst_mem hj)
  rcases step2 k h with h12 | h3
  · rcases h12 with h1 | h2
    · exact Or.inl h1
    · exact Or.inr (Or.inl h2)
  · exact Or.inr (Or.inr h3)

theorem bgoFallback_mem {wl wh gl gh : List (Nat × Obj)} {t : Option Nat} {k : Nat}
    (ht : ∀ j, t = some j → j ∈ wl.map Prod.fst ∨ j ∈ wh.map Prod.fst ∨ j ∈ gl.map Prod.fst)
    (h : bgoFallback wl wh gl gh t = some k) :
    k ∈ wl.map Prod.fst ∨ k ∈ wh.map Prod.fst ∨ k ∈ gl.map Prod.fst ∨ k ∈ gh.map Prod.fst := by
  rw [bgoFallback.eq_def] at h
  split at h
  case isTrue =>
    rcases ht k h with h1 | h2 | h3
    · exact Or.inl h1
    · exact Or.inr (Or.inl h2)
    · exact Or.inr (Or.inr (Or.inl h3))
  case isFalse =>
    revert h
    cases wl with
    | cons e es => intro h; simp only [Option.some.injEq] at h; subst h; exact Or.inl (by simp)
    | nil =>
      cases wh with
      | cons e es =>
        intro h; simp only [Option.some.injEq] at h; subst h
        exact Or.inr (Or.inl (by simp))
      | nil =>
        cases gl with
        | cons e es =>
          intro h; simp only [Option.some.injEq] at h; subst h
          exact Or.inr (Or.inr (Or.inl (by simp)))
        | nil =>
          cases gh with
          | cons e es =>
            intro h; simp only [Option.some.injEq] at h; subst h
            exact Or.inr (Or.inr (Or.inr (by simp)))
          | nil =>
            intro h
            rcases ht k h with h1 | h2 | h3
            · exact Or.inl h1
            · exact Or.inr (Or.inl h2)
            · exact Or.inr (Or.inr (Or.inl h3))

theorem bgoFallback_isSome {wl wh gl gh : List (Nat × Obj)} (t : Option Nat)
    (hne : ¬ (wl = [] ∧ wh = [] ∧ gl = [] ∧ gh = [])) :
    (bgoFallback wl wh gl gh t).isSome := by
  rw [bgoFallback.eq_def]
  split
  case isTrue hpt =>
    cases t with
    | none => exact absurd hpt (by simp [pyTruthy])
    | some j => simp
  case isFalse =>
    cases wl with
    | cons e es => simp
    | nil =>
      cases wh with
      | cons e es => simp
      | nil =>
        cases gl with
        | cons e es => simp
        | nil =>
          cases gh with
          | cons e es => simp
          | nil => exact absurd ⟨rfl, rfl, rfl, rfl⟩ hne

/-- C10: whenever a player holds at least one objective,
`best_given_objective` returns `some` index, and that index is a key of the
player's own objectives mapping — so the subsequent `dropObjective` or
`giveObjective` on it finds the objective. -/
theorem c10_best_given_objective_total (pl : PlayerSt) (resource_pool : List Char)
    (other_resource : Option Char) (h : pl.objectives ≠ []) :
    ∃ k, best_given_objective pl resource_pool other_resource = some k ∧
      k ∈ pl.objectives.map Prod.fst := by
  rw [best_given_objective.eq_def]
  have hsub : ∀ (q1 q2 : (Nat × Obj) → Bool) (j : Nat),
      j ∈ ((pl.objectives.filter q1).filter q2).map Prod.fst →
      j ∈ pl.objectives.map Prod.fst := by
    intro q1 q2 j hj
    rcases List.mem_map.mp hj with ⟨e, he, hej⟩
    exact hej ▸ List.mem_map_of_mem Prod.fst
      (List.mem_of_mem_filter (List.mem_of_mem_filter he))
  have hnonempty : ¬ ((pl.objectives.filter (fun e => !(bgoMatches resource_pool e))).filter
        (fun e => !(e.2.sub == 1)) = [] ∧
      (pl.objectives.filter (fun e => !(bgoMatches resource_pool e))).filter
        (fun e => e.2.sub == 1) = [] ∧
      (pl.objectives.filter (bgoMatches resource_pool)).filter
        (fun e => !(e.2.sub == 1)) = [] ∧
      (pl.objectives.filter (bgoMatches resource_pool)).filter
        (fun e => e.2.sub == 1) = []) := by
    rintro ⟨h1, h2, h3, h4⟩
    cases hobj : pl.objectives with
    | nil => exact h hobj
    | cons e es =>
      have he : e ∈ pl.objectives := by rw [hobj]; exact List.mem_cons_self e es
      by_cases hm : bgoMatches resource_pool e = true
      · have hein : e ∈ pl.objectives.filter (bgoMatches resource_pool) :=
          List.mem_filter.mpr ⟨he, hm⟩
        by_cases hs : (e.2.sub == 1) = true
        · have : e ∈ (pl.objectives.filter (bgoMatches resource_pool)).filter
              (fun e => e.2.sub == 1) := List.mem_filter.mpr ⟨hein, hs⟩
          rw [h4] at this
          exact absurd this (List.not_mem_nil e)
        · have : e ∈ (pl.objectives.filter (bgoMatches resource_pool)).filter
              (fun e => !(e.2.sub == 1)) := List.mem_filter.mpr ⟨hein, by simp [hs]⟩
          rw [h3] at this
          exact absurd this (List.not_mem_nil e)
      · have hein : e ∈ pl.objectives.filter (fun e => !(bgoMatches resource_pool e)) :=
          List.mem_filter.mpr ⟨he, by simp [hm]⟩
        by_cases hs : (e.2.sub == 1) = true
        · have : e ∈ (pl.objectives.filter (fun e => !(bgoMatches resource_pool e))).filter
              (fun e => e.2.sub == 1) := List.mem_filter.mpr ⟨hein, hs⟩
          rw [h2] at this
          exact absurd this (List.not_mem_nil e)
        · have : e ∈ (pl.objectives.filter (fun e => !(bgoMatches resource_pool e))).filter
              (fun e => !(e.2.sub == 1)) := List.mem_filter.mpr ⟨hein, by simp [hs]⟩
          rw [h1] at this
          exact absurd this (List.not_mem_nil e)
  have hts : ∀ j, (match other_resource with
      | none => none
      | some r => bgoTargeted
          ((pl.objectives.filter (fun e => !(bgoMatches resource_pool e))).filter
            (fun e => !(e.2.sub == 1)))
          ((pl.objectives.filter (fun e => !(bgoMatches resource_pool e))).filter
            (fun e => e.2.sub == 1))
          ((pl.objectives.filter (bgoMatches resource_pool)).filter
            (fun e => !(e.2.sub == 1))) r : Option Nat) = some j →
      j ∈ ((pl.objectives.filter (fun e => !(bgoMatches resource_pool e))).filter
            (fun e => !(e.2.sub == 1))).map Prod.fst ∨
      j ∈ ((pl.objectives.filter (fun e => !(bgoMatches resource_pool e))).filter
            (fun e => e.2.sub == 1)).map Prod.fst ∨
      j ∈ ((pl.objectives.filter (bgoMatches resource_pool)).filter
            (fun e => !(e.2.sub == 1))).map Prod.fst := by
    intro j hj
    cases other_resource with
    | none => exact absurd hj (by simp)
    | some r => exact bgoTargeted_mem hj
  obtain ⟨k, hk⟩ := Option.isSome_iff_exists.mp (bgoFallback_isSome _ hnonempty)
  refine ⟨k, hk, ?_⟩
  rcases bgoFallback_mem hts hk with h1 | h2 | h3 | h4
  · exact hsub _ _ k h1
  · exact hsub _ _ k h2
  · exact hsub _ _ k h3
  · exact hsub _ _ k h4

/-- C10, witness: a player holding only the single objective with global
index 0 (a low-value a2 unmatched by pool B); the selector returns index 0,
a key the player holds. -/
theorem c10_witness :
    ∃ k, best_given_objective
        ({ id := 7, resource := 'A', objectives := [(0, ⟨'a', 2, 10⟩)], teamId := 0 } : PlayerSt)
        ['B'] (some 'A') = some k ∧
      k ∈ (({ id := 7, resource := 'A', objectives := [(0, ⟨'a', 2, 10⟩)],
              teamId := 0 } : PlayerSt)).objectives.map Prod.fst :=
  c10_best_given_objective_total _ ['B'] (some 'A') (by decide)

/-
### Well-formedness of the object graph, and preservation under the three
### mutating methods (claims C6 and C9)
-/

/-- Well-formedness of a state: distinct player ids, distinct team indices,
every player appears exactly once in its own team's member list and in no
other team's list, the back-referenced team exists, each player's objective
keys are distinct (a Python dict), and no objective index is held by two
players. -/
def WF (s : State) : Prop :=
  (s.players.map (fun p => p.id)).Nodup ∧
  (s.teams.map (fun t => t.index)).Nodup ∧
  (∀ p ∈ s.players, ∀ t ∈ s.teams,
    t.members.count p.id = (if t.index = p.teamId then 1 else 0)) ∧
  (∀ p ∈ s.players, ∃ t ∈ s.teams, t.index = p.teamId) ∧
  (∀ p ∈ s.players, (p.objectives.map Prod.fst).Nodup) ∧
  (∀ p ∈ s.players, ∀ q ∈ s.players, p.id ≠ q.id →
    ∀ k ∈ p.objectives.map Prod.fst, k ∉ q.objectives.map Prod.fst)

theorem findPlayer_some {s : State} {pid : Nat} {p : PlayerSt}
    (h : findPlayer s pid = some p) : p ∈ s.players ∧ p.id = pid := by
  refine ⟨List.mem_of_find?_eq_some h, ?_⟩
  have := List.find?_some h
  simpa using this

theorem findTeam_some {ts : List TeamSt} {tid : Nat} {t : TeamSt}
    (h : findTeam ts tid = some t) : t ∈ ts ∧ t.index = tid := by
  refine ⟨List.mem_of_find?_eq_some h, ?_⟩
  have := List.find?_some h
  simpa using this

theorem updatePlayers_map_id (ps : List PlayerSt) (pid : Nat) (f : PlayerSt → PlayerSt)
    (hf : ∀ p, (f p).id = p.id) :
    (updatePlayers ps pid f).map (fun p => p.id) = ps.map (fun p => p.id) := by
  rw [updatePlayers, List.map_map]
  apply List.map_congr_left
  intro p _
  by_cases h : p.id = pid <;> simp [h, hf]

theorem updateTeams_map_index (ts : List TeamSt) (tid : Nat) (f : TeamSt → TeamSt)
    (hf : ∀ t, (f t).index = t.index) :
    (updateTeams ts tid f).map (fun t => t.index) = ts.map (fun t => t.index) := by
  rw [updateTeams, List.map_map]
  apply List.map_congr_left
  intro t _
  by_cases h : t.index = tid <;> simp [h, hf]

theorem find?_updatePlayers (ps : List PlayerSt) (pid : Nat) (f : PlayerSt → PlayerSt)
    (hf : ∀ p, (f p).id = p.id) (qid : Nat) :
    (updatePlayers ps pid f).find? (fun p => p.id = qid)
      = (ps.find? (fun p => p.id = qid)).map (fun p => if p.id = pid then f p else p) := by
  induction ps with
  | nil => rfl
  | cons q qs ih =>
    show (((if q.id = pid then f q else q) :: updatePlayers qs pid f).find?
        (fun p => p.id = qid)) = _
    by_cases hq : q.id = qid
    · have hhead : ((if q.id = pid then f q else q)).id = qid := by
        by_cases hp : q.id = pid
        · rw [if_pos hp, hf]; exact hq
        · rw [if_neg hp]; exact hq
      rw [List.find?_cons_of_pos _ (by simpa using hhead)]
      rw [List.find?_cons_of_pos _ (by simpa using hq)]
      simp
    · have hhead : ¬ ((if q.id = pid then f q else q).id = qid) := by
        by_cases hp : q.id = pid
        · rw [if_pos hp, hf]; exact hq
        · rw [if_neg hp]; exact hq
      rw [List.find?_cons_of_neg _ (by simpa using hhead)]
      rw [List.find?_cons_of_neg _ (by simpa using hq)]
      exact ih

theorem find?_updateTeams (ts : List TeamSt) (tid : Nat) (f : TeamSt → TeamSt)
    (hf : ∀ t, (f t).index = t.index) (j : Nat) :
    findTeam (updateTeams ts tid f) j
      = (findTeam ts j).map (fun t => if t.index = tid then f t else t) := by
  induction ts with
  | nil => rfl
  | cons t ts ih =>
    show (((if t.index = tid then f t else t) :: updateTeams ts tid f).find?
        (fun u => u.index = j)) = _
    by_cases hj : t.index = j
    · have hhead : ((if t.index = tid then f t else t)).index = j := by
        by_cases hp : t.index = tid
        · rw [if_pos hp, hf]; exact hj
        · rw [if_neg hp]; exact hj
      rw [List.find?_cons_of_pos _ (by simpa using hhead)]
      rw [findTeam, List.find?_cons_of_pos _ (by simpa using hj)]
      simp
    · have hhead : ¬ ((if t.index = tid then f t else t).index = j) := by
        by_cases hp : t.index = tid
        · rw [if_pos hp, hf]; exact hj
        · rw [if_neg hp]; exact hj
      rw [List.find?_cons_of_neg _ (by simpa using hhead)]
      rw [findTeam, List.find?_cons_of_neg _ (by simpa using hj)]
      exact ih

theorem sum_objlen_update (ps : List PlayerSt) (pid : Nat) (f : PlayerSt → PlayerSt)
    (hnd : (ps.map (fun p => p.id)).Nodup) (p₀ : PlayerSt) (hmem : p₀ ∈ ps)
    (hid : p₀.id = pid) :
    ((updatePlayers ps pid f).map (fun p => p.objectives.length)).sum + p₀.objectives.length
      = (ps.map (fun p => p.objectives.length)).sum + (f p₀).objectives.length := by
  induction ps with
  | nil => cases hmem
  | cons q qs ih =>
    simp only [List.map_cons, List.nodup_cons] at hnd
    obtain ⟨hqnotin, hndq⟩ := hnd
    have hunfold : updatePlayers (q :: qs) pid f
        = (if q.id = pid then f q else q) :: updatePlayers qs pid f := rfl
    rw [hunfold]
    rcases List.mem_cons.mp hmem with heq | hmem'
    · subst heq
      rw [if_pos hid]
      have hrest : updatePlayers qs pid f = qs := by
        rw [updatePlayers]
        conv_rhs => rw [← List.map_id qs]
        apply List.map_congr_left
        intro p hp
        have hne : ¬ p.id = pid := by
          intro hcontra
          have hin : p.id ∈ qs.map (fun p => p.id) := List.mem_map_of_mem _ hp
          rw [hcontra, ← hid] at hin
          exact hqnotin hin
        simp [hne]
      rw [hrest]
      simp only [List.map_cons, List.sum_cons]
      omega
    · have hq : ¬ q.id = pid := by
        intro hcontra
        have hin : p₀.id ∈ qs.map (fun p => p.id) := List.mem_map_of_mem _ hmem'
        rw [hid, ← hcontra] at hin
        exact hqnotin hin
      rw [if_neg hq]
      simp only [List.map_cons, List.sum_cons]
      have hihe := ih hndq hmem'
      omega

theorem sum_objlen_update_id (ps : List PlayerSt) (pid : Nat) (f : PlayerSt → PlayerSt)
    (hf : ∀ p, (f p).objectives = p.objectives) :
    ((updatePlayers ps pid f).map (fun p => p.objectives.length)).sum
      = (ps.map (fun p => p.objectives.length)).sum := by
  rw [updatePlayers, List.map_map]
  apply congrArg
  apply List.map_congr_left
  intro p _
  by_cases h : p.id = pid <;> simp [h, hf]

theorem memb_updatePlayers {ps : List PlayerSt} {ts : List TeamSt} (pid : Nat)
    (f : PlayerSt → PlayerSt) (hfid : ∀ p, (f p).id = p.id)
    (hfteam : ∀ p, (f p).teamId = p.teamId)
    (hm : ∀ p ∈ ps, ∀ t ∈ ts, t.members.count p.id = (if t.index = p.teamId then 1 else 0)) :
    ∀ p' ∈ updatePlayers ps pid f, ∀ t ∈ ts,
      t.members.count p'.id = (if t.index = p'.teamId then 1 else 0) := by
  intro p' hp' t ht
  rcases List.mem_map.mp hp' with ⟨p, hp, rfl⟩
  by_cases h : p.id = pid
  · rw [if_pos h, hfid, hfteam]
    exact hm p hp t ht
  · rw [if_neg h]
    exact hm p hp t ht

theorem teamExists_updatePlayers {ps : List PlayerSt} {ts : List TeamSt} (pid : Nat)
    (f : PlayerSt → PlayerSt) (hfteam : ∀ p, (f p).teamId = p.teamId)
    (hm : ∀ p ∈ ps, ∃ t ∈ ts, t.index = p.teamId) :
    ∀ p' ∈ updatePlayers ps pid f, ∃ t ∈ ts, t.index = p'.teamId := by
  intro p' hp'
  rcases List.mem_map.mp hp' with ⟨p, hp, rfl⟩
  by_cases h : p.id = pid
  · rw [if_pos h, hfteam]
    exact hm p hp
  · rw [if_neg h]
    exact hm p hp

theorem keysNodup_updatePlayers {ps : List PlayerSt} (pid : Nat) (f : PlayerSt → PlayerSt)
    (himp : ∀ p ∈ ps, p.id = pid → (p.objectives.map Prod.fst).Nodup →
      ((f p).objectives.map Prod.fst).Nodup)
    (hnd : ∀ p ∈ ps, (p.objectives.map Prod.fst).Nodup) :
    ∀ p' ∈ updatePlayers ps pid f, (p'.objectives.map Prod.fst).Nodup := by
  intro p' hp'
  rcases List.mem_map.mp hp' with ⟨p, hp, rfl⟩
  by_cases h : p.id = pid
  · rw [if_pos h]
    exact himp p hp h (hnd p hp)
  · rw [if_neg h]
    exact hnd p hp

theorem disj_updatePlayers {ps : List PlayerSt} (pid : Nat) (f : PlayerSt → PlayerSt)
    (hfid : ∀ p, (f p).id = p.id)
    (hsub : ∀ p, ((f p).objectives.map Prod.fst) ⊆ p.objectives.map Prod.fst)
    (hd : ∀ p ∈ ps, ∀ q ∈ ps, p.id ≠ q.id → ∀ k ∈ p.objectives.map Prod.fst,
      k ∉ q.objectives.map Prod.fst) :
    ∀ p' ∈ updatePlayers ps pid f, ∀ q' ∈ updatePlayers ps pid f, p'.id ≠ q'.id →
      ∀ k ∈ p'.objectives.map Prod.fst, k ∉ q'.objectives.map Prod.fst := by
  intro p' hp' q' hq' hne k hk hkq
  rcases List.mem_map.mp hp' with ⟨p, hp, rfl⟩
  rcases List.mem_map.mp hq' with ⟨q, hq, rfl⟩
  have idp : ((if p.id = pid then f p else p)).id = p.id := by
    by_cases h : p.id = pid <;> simp [h, hfid]
  have idq : ((if q.id = pid then f q else q)).id = q.id := by
    by_cases h : q.id = pid <;> simp [h, hfid]
  have hkp : k ∈ p.objectives.map Prod.fst := by
    by_cases h : p.id = pid
    · rw [if_pos h] at hk; exact hsub p hk
    · rw [if_neg h] at hk; exact hk
  have hkq2 : k ∈ q.objectives.map Prod.fst := by
    by_cases h : q.id = pid
    · rw [if_pos h] at hkq; exact hsub q hkq
    · rw [if_neg h] at hkq; exact hkq
  have hneq : p.id ≠ q.id := by
    intro hcontra
    exact hne (by rw [idp, idq, hcontra])
  exact hd p hp q hq hneq k hkp hkq2

theorem eraseKey_sublist (l : List (Nat × Obj)) (k : Nat) : (eraseKey l k).Sublist l :=
  List.eraseP_sublist l

theorem keys_eraseKey_subset (l : List (Nat × Obj)) (k : Nat) :
    (eraseKey l k).map Prod.fst ⊆ l.map Prod.fst :=
  ((eraseKey_sublist l k).map Prod.fst).subset

theorem keys_eraseKey_nodup {l : List (Nat × Obj)} (k : Nat)
    (h : (l.map Prod.fst).Nodup) : ((eraseKey l k).map Prod.fst).Nodup :=
  h.sublist ((eraseKey_sublist l k).map Prod.fst)

theorem eraseKey_length {l : List (Nat × Obj)} {k : Nat} {ob : Obj}
    (h : lookupObj l k = some ob) : (eraseKey l k).length + 1 = l.length := by
  rw [lookupObj] at h
  cases hf : l.find? (fun e => e.1 = k) with
  | none => rw [hf] at h; exact absurd h (by simp)
  | some e =>
    have hmem := List.mem_of_find?_eq_some hf
    have hpe := List.find?_some hf
    exact List.length_eraseP_add_one hmem hpe

theorem not_mem_keys_eraseKey {l : List (Nat × Obj)} {k : Nat}
    (hnd : (l.map Prod.fst).Nodup) : k ∉ (eraseKey l k).map Prod.fst := by
  induction l with
  | nil => simp [eraseKey]
  | cons e es ih =>
    simp only [List.map_cons, List.nodup_cons] at hnd
    obtain ⟨henotin, hndes⟩ := hnd
    rw [eraseKey, List.eraseP_cons]
    by_cases he : e.1 = k
    · have hd : decide (e.1 = k) = true := by simp [he]
      rw [hd, cond_true, ← he]
      exact henotin
    · have hd : decide (e.1 = k) = false := by simp [he]
      rw [hd, cond_false]
      intro hcontra
      rcases List.mem_map.mp hcontra with ⟨e', he', hke⟩
      rcases List.mem_cons.mp he' with rfl | he'2
      · exact he hke
      · exact ih hndes (List.mem_map.mpr ⟨e', he'2, hke⟩)

theorem dictInsert_fresh {l : List (Nat × Obj)} {k : Nat} (v : Obj)
    (h : k ∉ l.map Prod.fst) : dictInsert l k v = l ++ [(k, v)] := by
  rw [dictInsert, if_neg]
  intro hcontra
  rw [List.any_eq_true] at hcontra
  obtain ⟨e, he, hek⟩ := hcontra
  exact h (List.mem_map.mpr ⟨e, he, by simpa using hek⟩)

theorem dropObjective_ok {s : State} {pid idx : Nat} {s' : State}
    (h : dropObjective s pid idx = .ok s') :
    ∃ p ob, findPlayer s pid = some p ∧ lookupObj p.objectives idx = some ob ∧
      s' = { s with
        players := updatePlayers s.players pid
          (fun q => { q with objectives := eraseKey q.objectives idx }),
        dropped := s.dropped ++ [ob] } := by
  rw [dropObjective.eq_def] at h
  split at h
  · exact absurd h (by simp)
  · rename_i p hp
    split at h
    · exact absurd h (by simp)
    · rename_i ob hob
      refine ⟨p, ob, hp, hob, ?_⟩
      injection h with h'
      rw [← h']

theorem dropObjective_counts {s : State} {pid idx : Nat} {s' : State}
    (h : dropObjective s pid idx = .ok s') :
    objCount s' pid + 1 = objCount s pid ∧
    (∀ q, q ≠ pid → findPlayer s' q = findPlayer s q) ∧
    s'.dropped.length = s.dropped.length + 1 ∧
    s'.teams = s.teams ∧ s'.traded = s.traded ∧
    teamIdOf s' pid = teamIdOf s pid := by
  obtain ⟨p, ob, hp, hob, rfl⟩ := dropObjective_ok h
  have hfid : ∀ q : PlayerSt,
      (({ q with objectives := eraseKey q.objectives idx } : PlayerSt)).id = q.id :=
    fun q => rfl
  have hfind : ∀ qid, findPlayer { s with
        players := updatePlayers s.players pid
          (fun q => { q with objectives := eraseKey q.objectives idx }),
        dropped := s.dropped ++ [ob] } qid
      = (findPlayer s qid).map
          (fun p => if p.id = pid then
            { p with objectives := eraseKey p.objectives idx } else p) := by
    intro qid
    show (updatePlayers s.players pid
        (fun q => { q with objectives := eraseKey q.objectives idx })).find?
        (fun p => p.id = qid) = _
    exact find?_updatePlayers s.players pid _ hfid qid
  refine ⟨?_, ?_, by simp, rfl, rfl, ?_⟩
  · rw [objCount, objCount, hfind pid, hp]
    have hpid := (findPlayer_some hp).2
    simp only [Option.map_some', if_pos hpid, Option.getD_some]
    exact eraseKey_length hob
  · intro q hq
    rw [hfind q]
    cases hfq : findPlayer s q with
    | none => rfl
    | some pq =>
      have := (findPlayer_some hfq).2
      simp only [Option.map_some']
      rw [if_neg (by rw [this]; exact hq)]
  · rw [teamIdOf, teamIdOf, hfind pid, hp]
    have hpid := (findPlayer_some hp).2
    simp [if_pos hpid]

theorem dropObjective_WF {s : State} {pid idx : Nat} {s' : State}
    (hwf : WF s) (h : dropObjective s pid idx = .ok s') :
    WF s' ∧ heldCount s' + 1 = heldCount s ∧
    s'.dropped.length = s.dropped.length + 1 ∧
    s'.teams = s.teams ∧ s'.traded = s.traded := by
  obtain ⟨hids, htidx, hmemb, hex, hknd, hdisj⟩ := hwf
  obtain ⟨p, ob, hp, hob, rfl⟩ := dropObjective_ok h
  obtain ⟨hpmem, hpid⟩ := findPlayer_some hp
  have hfid : ∀ q : PlayerSt,
      (({ q with objectives := eraseKey q.objectives idx } : PlayerSt)).id = q.id :=
    fun q => rfl
  have hfteam : ∀ q : PlayerSt,
      (({ q with objectives := eraseKey q.objectives idx } : PlayerSt)).teamId = q.teamId :=
    fun q => rfl
  refine ⟨⟨?_, htidx, ?_, ?_, ?_, ?_⟩, ?_, by simp, rfl, rfl⟩
  · rw [show ({ s with
        players := updatePlayers s.players pid
          (fun q => { q with objectives := eraseKey q.objectives idx }),
        dropped := s.dropped ++ [ob] } : State).players = updatePlayers s.players pid
          (fun q => { q with objectives := eraseKey q.objectives idx }) from rfl]
    rw [updatePlayers_map_id _ _ _ hfid]
    exact hids
  · exact memb_updatePlayers pid _ hfid hfteam hmemb
  · exact teamExists_updatePlayers pid _ hfteam hex
  · exact keysNodup_updatePlayers pid _
      (fun q _ _ hq => keys_eraseKey_nodup idx hq) hknd
  · exact disj_updatePlayers pid _ hfid (fun q => keys_eraseKey_subset _ _) hdisj
  · rw [heldCount, heldCount]
    rw [show ({ s with
        players := updatePlayers s.players pid
          (fun q => { q with objectives := eraseKey q.objectives idx }),
        dropped := s.dropped ++ [ob] } : State).players = updatePlayers s.players pid
          (fun q => { q with objectives := eraseKey q.objectives idx }) from rfl]
    have hsum := sum_objlen_update s.players pid
      (fun q => { q with objectives := eraseKey q.objectives idx }) hids p hpmem hpid
    have hlen := eraseKey_length hob
    simp only at hsum
    omega

theorem lookupObj_mem_keys {l : List (Nat × Obj)} {k : Nat} {ob : Obj}
    (h : lookupObj l k = some ob) : k ∈ l.map Prod.fst := by
  rw [lookupObj] at h
  cases hf : l.find? (fun e => e.1 = k) with
  | none => rw [hf] at h; exact absurd h (by simp)
  | some e =>
    have hmem := List.mem_of_find?_eq_some hf
    have hpe := List.find?_some hf
    have : e.1 = k := by simpa using hpe
    exact this ▸ List.mem_map_of_mem Prod.fst hmem

theorem dictInsert_length_ge (l : List (Nat × Obj)) (k : Nat) (v : Obj) :
    l.length ≤ (dictInsert l k v).length := by
  rw [dictInsert]
  split
  · simp
  · simp

theorem keys_dictInsert_fresh {l : List (Nat × Obj)} {k : Nat} (v : Obj)
    (h : k ∉ l.map Prod.fst) :
    (dictInsert l k v).map Prod.fst = l.map Prod.fst ++ [k] := by
  rw [dictInsert_fresh v h, List.map_append]
  rfl

theorem nodup_concat_of {α : Type} {l : List α} {a : α} (h : l.Nodup) (ha : a ∉ l) :
    (l ++ [a]).Nodup := by
  rw [List.nodup_append]
  refine ⟨h, List.nodup_singleton a, ?_⟩
  intro x hx hxa
  simp only [List.mem_singleton] at hxa
  subst hxa
  exact ha hx

theorem giveObjective_ok {s : State} {giverId idx receiverId : Nat} {s' : State}
    (h : giveObjective s giverId idx receiverId = .ok s') :
    ∃ g ob r0, findPlayer s giverId = some g ∧ lookupObj g.objectives idx = some ob ∧
      findPlayer s receiverId = some r0 ∧
      s' = { s with
        players := updatePlayers
          (updatePlayers s.players giverId
            (fun q => { q with objectives := eraseKey q.objectives idx }))
          receiverId
          (fun q => { q with objectives := dictInsert q.objectives idx ob }),
        traded := s.traded ++ [ob] } := by
  rw [giveObjective.eq_def] at h
  split at h
  · exact absurd h (by simp)
  · rename_i g hg
    split at h
    · exact absurd h (by simp)
    · rename_i ob hob
      split at h
      · exact absurd h (by simp)
      · rename_i r0 hr0
        refine ⟨g, ob, r0, hg, hob, hr0, ?_⟩
        injection h with h'
        rw [← h']

theorem giveObjective_counts {s : State} {giverId idx receiverId : Nat} {s' : State}
    (hgr : giverId ≠ receiverId)
    (h : giveObjective s giverId idx receiverId = .ok s') :
    objCount s' giverId + 1 = objCount s giverId ∧
    objCount s receiverId ≤ objCount s' receiverId ∧
    (∀ q, q ≠ giverId → q ≠ receiverId → findPlayer s' q = findPlayer s q) ∧
    s'.traded.length = s.traded.length + 1 ∧
    s'.teams = s.teams ∧ s'.dropped = s.dropped ∧
    teamIdOf s' giverId = teamIdOf s giverId ∧
    teamIdOf s' receiverId = teamIdOf s receiverId := by
  obtain ⟨g, ob, r0, hg, hob, hr0, rfl⟩ := giveObjective_ok h
  have hfidE : ∀ q : PlayerSt,
      (({ q with objectives := eraseKey q.objectives idx } : PlayerSt)).id = q.id :=
    fun q => rfl
  have hfidI : ∀ q : PlayerSt,
      (({ q with objectives := dictInsert q.objectives idx ob } : PlayerSt)).id = q.id :=
    fun q => rfl
  have hfind : ∀ qid, findPlayer { s with
        players := updatePlayers
          (updatePlayers s.players giverId
            (fun q => { q with objectives := eraseKey q.objectives idx }))
          receiverId (fun q => { q with objectives := dictInsert q.objectives idx ob }),
        traded := s.traded ++ [ob] } qid
      = ((findPlayer s qid).map
          (fun p => if p.id = giverId then
            { p with objectives := eraseKey p.objectives idx } else p)).map
          (fun p => if p.id = receiverId then
            { p with objectives := dictInsert p.objectives idx ob } else p) := by
    intro qid
    show (updatePlayers
        (updatePlayers s.players giverId
          (fun q => { q with objectives := eraseKey q.objectives idx }))
        receiverId (fun q => { q with objectives := dictInsert q.objectives idx ob })).find?
        (fun p => p.id = qid) = _
    rw [find?_updatePlayers _ receiverId _ hfidI qid]
    rw [find?_updatePlayers _ giverId _ hfidE qid]
    rfl
  have hgid := (findPlayer_some hg).2
  have hrid := (findPlayer_some hr0).2
  have hgnr : ¬ g.id = receiverId := by rw [hgid]; exact hgr
  have hrng : ¬ r0.id = giverId := by rw [hrid]; exact Ne.symm hgr
  refine ⟨?_, ?_, ?_, by simp, rfl, rfl, ?_, ?_⟩
  · rw [objCount, objCount, hfind giverId, hg]
    simp only [Option.map_some']
    rw [if_pos hgid]
    dsimp only
    rw [if_neg hgnr]
    simp only [Option.map_some', Option.getD_some]
    exact eraseKey_length hob
  · rw [objCount, objCount, hfind receiverId, hr0]
    simp only [Option.map_some']
    rw [if_neg hrng]
    rw [if_pos hrid]
    simp only [Option.map_some', Option.getD_some]
    exact dictInsert_length_ge _ _ _
  · intro q hqg hqr
    rw [hfind q]
    cases hfq : findPlayer s q with
    | none => rfl
    | some pq =>
      have hpqid := (findPlayer_some hfq).2
      simp only [Option.map_some']
      rw [if_neg (show ¬ pq.id = giverId by rw [hpqid]; exact hqg)]
      rw [if_neg (show ¬ pq.id = receiverId by rw [hpqid]; exact hqr)]
  · rw [teamIdOf, teamIdOf, hfind giverId, hg]
    simp only [Option.map_some']
    rw [if_pos hgid]
    dsimp only
    rw [if_neg hgnr]
  · rw [teamIdOf, teamIdOf, hfind receiverId, hr0]
    simp only [Option.map_some']
    rw [if_neg hrng]
    rw [if_pos hrid]

theorem giveObjective_WF {s : State} {giverId idx receiverId : Nat} {s' : State}
    (hwf : WF s) (hgr : giverId ≠ receiverId)
    (h : giveObjective s giverId idx receiverId = .ok s') :
    WF s' ∧ heldCount s' = heldCount s ∧
    s'.traded.length = s.traded.length + 1 ∧
    s'.teams = s.teams ∧ s'.dropped = s.dropped := by
  obtain ⟨hids, htidx, hmemb, hex, hknd, hdisj⟩ := hwf
  obtain ⟨g, ob, r0, hg, hob, hr0, rfl⟩ := giveObjective_ok h
  obtain ⟨hgmem, hgid⟩ := findPlayer_some hg
  obtain ⟨hrmem, hrid⟩ := findPlayer_some hr0
  have hkg : idx ∈ g.objectives.map Prod.fst := lookupObj_mem_keys hob
  have hidxonly : ∀ p ∈ s.players, p.id ≠ giverId → idx ∉ p.objectives.map Prod.fst := by
    intro p hp hpne
    exact hdisj g hgmem p hp (by rw [hgid]; exact fun hc => hpne hc.symm) idx hkg
  have hfidE : ∀ q : PlayerSt,
      (({ q with objectives := eraseKey q.objectives idx } : PlayerSt)).id = q.id :=
    fun q => rfl
  have hfidI : ∀ q : PlayerSt,
      (({ q with objectives := dictInsert q.objectives idx ob } : PlayerSt)).id = q.id :=
    fun q => rfl
  have hfteamE : ∀ q : PlayerSt,
      (({ q with objectives := eraseKey q.objectives idx } : PlayerSt)).teamId = q.teamId :=
    fun q => rfl
  have hfteamI : ∀ q : PlayerSt,
      (({ q with objectives := dictInsert q.objectives idx ob } : PlayerSt)).teamId
        = q.teamId := fun q => rfl
  have hids1 : ((updatePlayers s.players giverId
      (fun q => { q with objectives := eraseKey q.objectives idx })).map
        (fun p => p.id)).Nodup := by
    rw [updatePlayers_map_id _ _ _ hfidE]
    exact hids
  -- characterization of the post-state players
  have hchar : ∀ p' ∈ updatePlayers
      (updatePlayers s.players giverId
        (fun q => { q with objectives := eraseKey q.objectives idx }))
      receiverId (fun q => { q with objectives := dictInsert q.objectives idx ob }),
      ∃ p0 ∈ s.players, p'.id = p0.id ∧ p'.teamId = p0.teamId ∧
        ((p0.id = giverId ∧ p'.objectives = eraseKey p0.objectives idx) ∨
         (p0.id = receiverId ∧ p'.objectives = dictInsert p0.objectives idx ob) ∨
         (p0.id ≠ giverId ∧ p0.id ≠ receiverId ∧ p'.objectives = p0.objectives)) := by
    intro p' hp'
    rcases List.mem_map.mp hp' with ⟨p1, hp1, rfl⟩
    rcases List.mem_map.mp hp1 with ⟨p0, hp0, rfl⟩
    refine ⟨p0, hp0, ?_⟩
    by_cases h1 : p0.id = giverId
    · rw [if_pos h1]
      have h2 : ¬ (({ p0 with objectives := eraseKey p0.objectives idx } : PlayerSt)).id
          = receiverId := by
        show ¬ p0.id = receiverId
        rw [h1]; exact hgr
      rw [if_neg h2]
      exact ⟨rfl, rfl, Or.inl ⟨h1, rfl⟩⟩
    · rw [if_neg h1]
      by_cases h2 : p0.id = receiverId
      · rw [if_pos h2]
        exact ⟨rfl, rfl, Or.inr (Or.inl ⟨h2, rfl⟩)⟩
      · rw [if_neg h2]
        exact ⟨rfl, rfl, Or.inr (Or.inr ⟨h1, h2, rfl⟩)⟩
  -- key-membership characterization
  have hkeys : ∀ p' ∈ updatePlayers
      (updatePlayers s.players giverId
        (fun q => { q with objectives := eraseKey q.objectives idx }))
      receiverId (fun q => { q with objectives := dictInsert q.objectives idx ob }),
      ∀ k ∈ p'.objectives.map Prod.fst, ∃ p0 ∈ s.players, p'.id = p0.id ∧
        ((k ∈ p0.objectives.map Prod.fst ∧ (p0.id = giverId → k ≠ idx)) ∨
         (k = idx ∧ p0.id = receiverId)) := by
    intro p' hp' k hk
    obtain ⟨p0, hp0, hpid, hpteam, hcase⟩ := hchar p' hp'
    refine ⟨p0, hp0, hpid, ?_⟩
    rcases hcase with ⟨hid1, hobj⟩ | ⟨hid2, hobj⟩ | ⟨hid1, hid2, hobj⟩
    · rw [hobj] at hk
      refine Or.inl ⟨keys_eraseKey_subset _ _ hk, fun _ hkidx => ?_⟩
      rw [hkidx] at hk
      exact not_mem_keys_eraseKey (hknd p0 hp0) hk
    · rw [hobj] at hk
      by_cases hfr : idx ∈ p0.objectives.map Prod.fst
      · exact absurd hfr (hidxonly p0 hp0 (by rw [hid2]; exact Ne.symm hgr))
      · rw [keys_dictInsert_fresh ob hfr] at hk
        rcases List.mem_append.mp hk with hk1 | hk2
        · exact Or.inl ⟨hk1, fun hcontra => absurd (hid2 ▸ hcontra) (Ne.symm hgr)⟩
        · exact Or.inr ⟨by simpa using hk2, hid2⟩
    · rw [hobj] at hk
      exact Or.inl ⟨hk, fun hcontra => absurd hcontra hid1⟩
  refine ⟨⟨?_, htidx, ?_, ?_, ?_, ?_⟩, ?_, by simp, rfl, rfl⟩
  · show ((updatePlayers _ receiverId _).map (fun p => p.id)).Nodup
    rw [updatePlayers_map_id _ _ _ hfidI]
    exact hids1
  · exact memb_updatePlayers receiverId _ hfidI hfteamI
      (memb_updatePlayers giverId _ hfidE hfteamE hmemb)
  · exact teamExists_updatePlayers receiverId _ hfteamI
      (teamExists_updatePlayers giverId _ hfteamE hex)
  · apply keysNodup_updatePlayers receiverId _
      ?_ (keysNodup_updatePlayers giverId _
        (fun q _ _ hq => keys_eraseKey_nodup idx hq) hknd)
    intro p hp1 hpid hnd
    rcases List.mem_map.mp hp1 with ⟨p0, hp0, rfl⟩
    have hp0id : ¬ p0.id = giverId := by
      intro hcontra
      rw [if_pos hcontra] at hpid
      have hpr : p0.id = receiverId := hpid
      rw [hcontra] at hpr
      exact hgr hpr
    rw [if_neg hp0id] at hpid hnd ⊢
    have hfr : idx ∉ p0.objectives.map Prod.fst := hidxonly p0 hp0 hp0id
    show ((dictInsert p0.objectives idx ob).map Prod.fst).Nodup
    rw [keys_dictInsert_fresh ob hfr]
    exact nodup_concat_of hnd hfr
  · -- objective-index disjointness across distinct players
    intro p' hp' q' hq' hne k hkp hkq
    obtain ⟨p0, hp0, hpid, hA⟩ := hkeys p' hp' k hkp
    obtain ⟨q0, hq0, hqid, hB⟩ := hkeys q' hq' k hkq
    have hne0 : p0.id ≠ q0.id := by
      rw [← hpid, ← hqid]; exact hne
    rcases hA with ⟨hkA, hgA⟩ | ⟨hkidx, hprec⟩
    · rcases hB with ⟨hkB, hgB⟩ | ⟨hkidx, hqrec⟩
      · exact hdisj p0 hp0 q0 hq0 hne0 k hkA hkB
      · -- k = idx held (in the old state) by p0, while q' got it as receiver
        by_cases hp0g : p0.id = giverId
        · exact hgA hp0g hkidx
        · rw [hkidx] at hkA
          exact hidxonly p0 hp0 hp0g hkA
    · rcases hB with ⟨hkB, hgB⟩ | ⟨hkidx2, hqrec⟩
      · by_cases hq0g : q0.id = giverId
        · exact hgB hq0g hkidx
        · rw [hkidx] at hkB
          exact hidxonly q0 hq0 hq0g hkB
      · exact hne0 (by rw [hprec, hqrec])
  · -- held objective count is conserved by a trade
    show ((updatePlayers _ receiverId _).map (fun p => p.objectives.length)).sum = heldCount s
    have hr1mem : r0 ∈ updatePlayers s.players giverId
        (fun q => { q with objectives := eraseKey q.objectives idx }) := by
      rw [updatePlayers]
      refine List.mem_map.mpr ⟨r0, hrmem, ?_⟩
      rw [if_neg (by rw [hrid]; exact Ne.symm hgr)]
    have hsum1 := sum_objlen_update s.players giverId
      (fun q => { q with objectives := eraseKey q.objectives idx }) hids g hgmem hgid
    have hsum2 := sum_objlen_update
      (updatePlayers s.players giverId
        (fun q => { q with objectives := eraseKey q.objectives idx }))
      receiverId (fun q => { q with objectives := dictInsert q.objectives idx ob })
      hids1 r0 hr1mem hrid
    have hlenE : (eraseKey g.objectives idx).length + 1 = g.objectives.length :=
      eraseKey_length hob
    have hfr : idx ∉ r0.objectives.map Prod.fst := hidxonly r0 hrmem (by
      rw [hrid]; exact Ne.symm hgr)
    have hlenI : (dictInsert r0.objectives idx ob).length = r0.objectives.length + 1 := by
      rw [dictInsert_fresh ob hfr, List.length_append]
      rfl
    rw [heldCount]
    simp only at hsum1 hsum2
    omega

theorem joinTeam_ok {s : State} {pid tid : Nat} {s' : State}
    (h : joinTeam s pid tid = .ok s') :
    ∃ p told, findPlayer s pid = some p ∧ findTeam s.teams p.teamId = some told ∧
      pid ∈ told.members ∧ (findTeam s.teams tid).isSome ∧
      s' = { s with
        teams := updateTeams
          (updateTeams s.teams p.teamId (fun t => { t with members := t.members.erase pid }))
          tid (fun t => { t with members := t.members ++ [pid] }),
        players := updatePlayers s.players pid (fun q => { q with teamId := tid }) } := by
  rw [joinTeam.eq_def] at h
  split at h
  · exact absurd h (by simp)
  · rename_i p hp
    split at h
    · exact absurd h (by simp)
    · rename_i told htold
      split at h
      · split at h
        · rename_i hmem htgt
          refine ⟨p, told, hp, htold, hmem, htgt, ?_⟩
          injection h with h'
          rw [← h']
        · exact absurd h (by simp)
      · exact absurd h (by simp)

theorem joinTeam_counts {s : State} {pid tid : Nat} {s' : State}
    (h : joinTeam s pid tid = .ok s') :
    (∀ q, objCount s' q = objCount s q) ∧
    s'.dropped = s.dropped ∧ s'.traded = s.traded ∧
    (∀ q, q ≠ pid → teamIdOf s' q = teamIdOf s q) ∧
    teamIdOf s' pid = some tid := by
  obtain ⟨p, told, hp, htold, hmemtold, htgt, rfl⟩ := joinTeam_ok h
  have hfid : ∀ q : PlayerSt, (({ q with teamId := tid } : PlayerSt)).id = q.id :=
    fun q => rfl
  have hfind : ∀ qid, findPlayer { s with
        teams := updateTeams
          (updateTeams s.teams p.teamId (fun t => { t with members := t.members.erase pid }))
          tid (fun t => { t with members := t.members ++ [pid] }),
        players := updatePlayers s.players pid (fun q => { q with teamId := tid }) } qid
      = (findPlayer s qid).map (fun q => if q.id = pid then { q with teamId := tid } else q) := by
    intro qid
    show (updatePlayers s.players pid (fun q => { q with teamId := tid })).find?
        (fun q => q.id = qid) = _
    exact find?_updatePlayers s.players pid _ hfid qid
  have hpid := (findPlayer_some hp).2
  refine ⟨?_, rfl, rfl, ?_, ?_⟩
  · intro q
    rw [objCount, objCount, hfind q]
    cases hfq : findPlayer s q with
    | none => rfl
    | some pq =>
      simp only [Option.map_some']
      by_cases hpq : pq.id = pid
      · rw [if_pos hpq]
      · rw [if_neg hpq]
  · intro q hq
    rw [teamIdOf, teamIdOf, hfind q]
    cases hfq : findPlayer s q with
    | none => rfl
    | some pq =>
      have := (findPlayer_some hfq).2
      simp only [Option.map_some']
      rw [if_neg (by rw [this]; exact hq)]
  · rw [teamIdOf, hfind pid, hp]
    simp only [Option.map_some']
    rw [if_pos hpid]

theorem updateTeams_twice_char (ts : List TeamSt) (tidA tidB : Nat)
    (fA fB : TeamSt → TeamSt) :
    ∀ t' ∈ updateTeams (updateTeams ts tidA fA) tidB fB, ∃ t ∈ ts,
      t' = (fun u => if u.index = tidB then fB u else u)
        ((fun u => if u.index = tidA then fA u else u) t) := by
  intro t' ht'
  rcases List.mem_map.mp ht' with ⟨t1, ht1, rfl⟩
  rcases List.mem_map.mp ht1 with ⟨t, ht, rfl⟩
  exact ⟨t, ht, rfl⟩

theorem joinTeam_WF {s : State} {pid tid : Nat} {s' : State}
    (hwf : WF s) (h : joinTeam s pid tid = .ok s') :
    WF s' ∧ heldCount s' = heldCount s ∧
    s'.teams.map (fun t => t.index) = s.teams.map (fun t => t.index) ∧
    s'.dropped = s.dropped ∧ s'.traded = s.traded := by
  obtain ⟨hids, htidx, hmemb, hex, hknd, hdisj⟩ := hwf
  obtain ⟨p₀, told, hp, htold, hmemtold, htgt, rfl⟩ := joinTeam_ok h
  obtain ⟨hp₀mem, hp₀id⟩ := findPlayer_some hp
  have hfid : ∀ q : PlayerSt, (({ q with teamId := tid } : PlayerSt)).id = q.id :=
    fun q => rfl
  have hfobj : ∀ q : PlayerSt,
      (({ q with teamId := tid } : PlayerSt)).objectives = q.objectives := fun q => rfl
  have hersidx : ∀ t : TeamSt,
      (({ t with members := t.members.erase pid } : TeamSt)).index = t.index := fun t => rfl
  have happidx : ∀ t : TeamSt,
      (({ t with members := t.members ++ [pid] } : TeamSt)).index = t.index := fun t => rfl
  have hidxpres : (updateTeams
      (updateTeams s.teams p₀.teamId (fun t => { t with members := t.members.erase pid }))
      tid (fun t => { t with members := t.members ++ [pid] })).map (fun t => t.index)
      = s.teams.map (fun t => t.index) := by
    rw [updateTeams_map_index _ _ _ happidx, updateTeams_map_index _ _ _ hersidx]
  refine ⟨⟨?_, ?_, ?_, ?_, ?_, ?_⟩, ?_, hidxpres, rfl, rfl⟩
  · show ((updatePlayers s.players pid (fun q => { q with teamId := tid })).map
      (fun p => p.id)).Nodup
    rw [updatePlayers_map_id _ _ _ hfid]
    exact hids
  · show ((updateTeams _ tid _).map (fun t => t.index)).Nodup
    rw [hidxpres]
    exact htidx
  · -- each player appears exactly once in its own team, and nowhere else
    intro p' hp' t' ht'
    rcases List.mem_map.mp hp' with ⟨p, hpmem, rfl⟩
    obtain ⟨t, ht, rfl⟩ := updateTeams_twice_char _ _ _ _ _ t' ht'
    dsimp only
    have hc := hmemb p hpmem t ht
    by_cases hpp : p.id = pid
    · -- the moving player
      have hpeq : p = p₀ := List.inj_on_of_nodup_map hids hpmem hp₀mem (by rw [hpp, hp₀id])
      rw [← hpeq] at htold hp ⊢
      rw [if_pos hpp]
      dsimp only
      rw [hpp] at hc
      rw [hpp]
      by_cases h1 : t.index = p.teamId
      · rw [if_pos h1]
        dsimp only
        rw [if_pos h1] at hc
        by_cases h2 : t.index = tid
        · rw [if_pos h2]
          dsimp only
          rw [List.count_append, List.count_erase_self, hc]
          rw [if_pos h2]
          simp
        · rw [if_neg h2]
          dsimp only
          rw [List.count_erase_self, hc]
          rw [if_neg h2]
      · rw [if_neg h1]
        rw [if_neg h1] at hc
        by_cases h2 : t.index = tid
        · rw [if_pos h2]
          dsimp only
          rw [List.count_append, hc]
          rw [if_pos h2]
          simp
        · rw [if_neg h2]
          rw [hc]
          rw [if_neg h2]
    · -- a bystander: the moved id differs from this player's id
      rw [if_neg hpp]
      by_cases h1 : t.index = p₀.teamId
      · rw [if_pos h1]
        dsimp only
        by_cases h2 : t.index = tid
        · rw [if_pos h2]
          dsimp only
          rw [List.count_append, List.count_erase_of_ne hpp, hc]
          have hone : List.count p.id [pid] = 0 :=
            List.count_eq_zero.mpr (by simpa using hpp)
          rw [hone]
          simp
        · rw [if_neg h2]
          dsimp only
          rw [List.count_erase_of_ne hpp, hc]
      · rw [if_neg h1]
        by_cases h2 : t.index = tid
        · rw [if_pos h2]
          dsimp only
          rw [List.count_append, hc]
          have hone : List.count p.id [pid] = 0 :=
            List.count_eq_zero.mpr (by simpa using hpp)
          rw [hone]
          simp
        · rw [if_neg h2]
          exact hc
  · -- the back-referenced team still exists
    intro p' hp'
    rcases List.mem_map.mp hp' with ⟨p, hpmem, rfl⟩
    have hmap : ∀ j, (∃ t ∈ s.teams, t.index = j) → (∃ t' ∈ updateTeams
        (updateTeams s.teams p₀.teamId (fun t => { t with members := t.members.erase pid }))
        tid (fun t => { t with members := t.members ++ [pid] }), t'.index = j) := by
      intro j hj
      obtain ⟨t, ht, htj⟩ := hj
      refine ⟨(fun u => if u.index = tid then { u with members := u.members ++ [pid] } else u)
        ((fun u => if u.index = p₀.teamId then { u with members := u.members.erase pid }
          else u) t), ?_, ?_⟩
      · rw [updateTeams, updateTeams]
        exact List.mem_map_of_mem _ (List.mem_map_of_mem _ ht)
      · dsimp only
        by_cases h1 : t.index = p₀.teamId
        · rw [if_pos h1]
          dsimp only
          by_cases h2 : t.index = tid
          · rw [if_pos h2]
            exact htj
          · rw [if_neg h2]
            exact htj
        · rw [if_neg h1]
          by_cases h2 : t.index = tid
          · rw [if_pos h2]
            exact htj
          · rw [if_neg h2]
            exact htj
    by_cases hpp : p.id = pid
    · rw [if_pos hpp]
      apply hmap
      obtain ⟨ttgt, httgt⟩ := Option.isSome_iff_exists.mp htgt
      exact ⟨ttgt, (findTeam_some httgt).1, (findTeam_some httgt).2⟩
    · rw [if_neg hpp]
      exact hmap _ (hex p hpmem)
  · exact keysNodup_updatePlayers pid _ (fun q _ _ hq => hq) hknd
  · exact disj_updatePlayers pid _ hfid (fun q => by rw [hfobj]; exact fun k hk => hk) hdisj
  · show ((updatePlayers s.players pid (fun q => { q with teamId := tid })).map
      (fun p => p.objectives.length)).sum = heldCount s
    rw [sum_objlen_update_id _ _ _ hfobj]
    rfl

theorem addTeam_WF {s : State} {idx : Nat} (hwf : WF s)
    (hfresh : ∀ t ∈ s.teams, t.index ≠ idx) :
    WF (addTeam s idx) ∧ heldCount (addTeam s idx) = heldCount s ∧
    (addTeam s idx).dropped = s.dropped ∧ (addTeam s idx).traded = s.traded := by
  obtain ⟨hids, htidx, hmemb, hex, hknd, hdisj⟩ := hwf
  have hnotin : idx ∉ s.teams.map (fun t => t.index) := by
    intro hcontra
    rcases List.mem_map.mp hcontra with ⟨t, ht, hti⟩
    exact hfresh t ht hti
  refine ⟨⟨hids, ?_, ?_, ?_, hknd, hdisj⟩, rfl, rfl, rfl⟩
  · show ((s.teams ++ [({ index := idx, members := [] } : TeamSt)]).map (fun t => t.index)).Nodup
    rw [List.map_append]
    exact nodup_concat_of htidx hnotin
  · intro p hp t ht
    rcases List.mem_append.mp ht with ht1 | ht2
    · exact hmemb p hp t ht1
    · have : t = ({ index := idx, members := [] } : TeamSt) := by simpa using ht2
      subst this
      have hne : ¬ (idx = p.teamId) := by
        intro hcontra
        obtain ⟨t0, ht0, ht0i⟩ := hex p hp
        exact hfresh t0 ht0 (by rw [ht0i, ← hcontra])
      simp [hne]
  · intro p hp
    obtain ⟨t0, ht0, ht0i⟩ := hex p hp
    exact ⟨t0, List.mem_append.mpr (Or.inl ht0), ht0i⟩

/-- One successful negotiation mutation: the three Player methods that every
variation's success path is composed of, plus variation 4's fresh-team
creation.  A `give` step happens between the two distinct negotiating
players. -/
inductive Step : State → State → Prop where
  | drop (pid idx : Nat) {s s' : State} :
      dropObjective s pid idx = .ok s' → Step s s'
  | give (giverId idx receiverId : Nat) {s s' : State} : giverId ≠ receiverId →
      giveObjective s giverId idx receiverId = .ok s' → Step s s'
  | join (pid tid : Nat) {s s' : State} :
      joinTeam s pid tid = .ok s' → Step s s'
  | newTeam (idx : Nat) {s s' : State} : (∀ t ∈ s.teams, t.index ≠ idx) →
      s' = addTeam s idx → Step s s'

theorem step_preserves {s s' : State} (hwf : WF s) (hstep : Step s s') :
    WF s' ∧ heldCount s' + s'.dropped.length = heldCount s + s.dropped.length := by
  cases hstep with
  | drop pid idx h =>
    obtain ⟨hwf', hheld, hdrop, -, -⟩ := dropObjective_WF hwf h
    exact ⟨hwf', by omega⟩
  | give giverId idx receiverId hne h =>
    obtain ⟨hwf', hheld, -, -, hdrop⟩ := giveObjective_WF hwf hne h
    exact ⟨hwf', by rw [hheld, hdrop]⟩
  | join pid tid h =>
    obtain ⟨hwf', hheld, -, hdrop, -⟩ := joinTeam_WF hwf h
    exact ⟨hwf', by rw [hheld, hdrop]⟩
  | newTeam idx hfresh hs' =>
    subst hs'
    obtain ⟨hwf', hheld, hdrop, -⟩ := addTeam_WF hwf hfresh
    exact ⟨hwf', by rw [hheld, hdrop]⟩

theorem steps_preserve {s₀ s : State} (hwf : WF s₀)
    (hsteps : Relation.ReflTransGen Step s₀ s) :
    WF s ∧ heldCount s + s.dropped.length = heldCount s₀ + s₀.dropped.length := by
  induction hsteps with
  | refl => exact ⟨hwf, rfl⟩
  | tail hab hbc ih =>
    obtain ⟨hwfb, hcountb⟩ := ih
    obtain ⟨hwfc, hcountc⟩ := step_preserves hwfb hbc
    exact ⟨hwfc, by omega⟩

/-- C6: after any sequence of successful negotiation mutations (the drops,
trades and team joins that all five variations' success paths consist of,
in either motivation mode), every player still belongs to exactly one team —
it appears exactly once in its own team's member list and zero times in
every other team's list — and the held objective instances plus the dropped
objectives always add up to the initial count: drops remove exactly one
instance and trades conserve the count, moving the instance from the giver
to exactly one receiver. -/
theorem c6_membership_and_conservation (s₀ s : State) (hwf : WF s₀)
    (hsteps : Relation.ReflTransGen Step s₀ s) :
    (∀ p ∈ s.players, ∀ t ∈ s.teams,
      t.members.count p.id = (if t.index = p.teamId then 1 else 0)) ∧
    heldCount s + s.dropped.length = heldCount s₀ + s₀.dropped.length := by
  obtain ⟨hwfs, hcount⟩ := steps_preserve hwf hsteps
  exact ⟨hwfs.2.2.1, hcount⟩

def c6Start : State :=
  { players := [
      { id := 0, resource := 'A', objectives := [(0, ⟨'a', 1, 20⟩)], teamId := 0 },
      { id := 1, resource := 'B', objectives := [(1, ⟨'b', 1, 20⟩)], teamId := 1 }],
    teams := [{ index := 0, members := [0] }, { index := 1, members := [1] }],
    dropped := [], traded := [] }

def c6After : State :=
  { players := [
      { id := 0, resource := 'A', objectives := [], teamId := 0 },
      { id := 1, resource := 'B', objectives := [(1, ⟨'b', 1, 20⟩)], teamId := 1 }],
    teams := [{ index := 0, members := [0] }, { index := 1, members := [1] }],
    dropped := [⟨'a', 1, 20⟩], traded := [] }

/-- C6, witness: a concrete two-player state, one successful drop. -/
theorem c6_witness :
    WF c6Start ∧
    (∀ p ∈ c6After.players, ∀ t ∈ c6After.teams,
      t.members.count p.id = (if t.index = p.teamId then 1 else 0)) ∧
    heldCount c6After + c6After.dropped.length = heldCount c6Start + c6Start.dropped.length :=
  ⟨by unfold WF; decide,
   c6_membership_and_conservation c6Start c6After (by unfold WF; decide)
     (Relation.ReflTransGen.single (Step.drop 0 0 (by decide)))⟩


theorem exceptBind_ok {α β : Type} {x : Except String α} {f : α → Except String β} {b : β} :
    (x >>= f) = .ok b ↔ ∃ a, x = .ok a ∧ f a = .ok b := by
  cases x <;> simp [Bind.bind, Except.bind]

theorem variation_4_ok_true {s : State} {cm : Bool} {aId bId : Nat} {s' : State}
    (h : variation_4 s cm aId bId = .ok (true, s')) :
    ∃ s2, joinTeam (addTeam s (lastTeamIndex s + 1)) aId (lastTeamIndex s + 1) = .ok s2 ∧
      joinTeam s2 bId (lastTeamIndex s + 1) = .ok s' := by
  unfold variation_4 at h
  simp only [exceptBind_ok, pure, Except.pure] at h
  obtain ⟨pa, -, pb, -, ta, -, tb, -, ac, -, bc, -, an, -, bn, -, h⟩ := h
  cases cm with
  | true =>
    rw [if_pos rfl] at h
    simp only [exceptBind_ok, Except.ok.injEq] at h
    obtain ⟨cb, -, od, -, y, hy, h⟩ := h
    cases y with
    | false => rw [if_neg (by simp)] at h; exact absurd h (by simp)
    | true =>
      rw [if_pos rfl] at h
      simp only [exceptBind_ok, Except.ok.injEq, Prod.mk.injEq, true_and] at h
      obtain ⟨s2, h1, s3, h2, h3⟩ := h
      exact ⟨s2, h1, h3 ▸ h2⟩
  | false =>
    rw [if_neg (by simp)] at h
    simp only [exceptBind_ok, Except.ok.injEq] at h
    obtain ⟨y, hy, h⟩ := h
    cases y with
    | false => rw [if_neg (by simp)] at h; exact absurd h (by simp)
    | true =>
      rw [if_pos rfl] at h
      simp only [exceptBind_ok, Except.ok.injEq, Prod.mk.injEq, true_and] at h
      obtain ⟨s2, h1, s3, h2, h3⟩ := h
      exact ⟨s2, h1, h3 ▸ h2⟩


def Inv9 (s : State) : Prop :=
  WF s ∧ s.teams ≠ [] ∧
  (∀ t ∈ s.teams, t.index ≤ lastTeamIndex s) ∧
  (∀ t ∈ s.teams, t.members.length ≤ 2)

def v4OldTeamUpdate (aId bId paTid pbTid : Nat) (t : TeamSt) : TeamSt :=
  { t with members :=
      (if t.index = pbTid
        then (if t.index = paTid then t.members.erase aId else t.members).erase bId
        else (if t.index = paTid then t.members.erase aId else t.members)) }

theorem variation_4_structure {s s' : State} {cm : Bool} {aId bId : Nat}
    (hinv : Inv9 s) (hne : aId ≠ bId)
    (h : variation_4 s cm aId bId = .ok (true, s')) :
    ∃ pa pb, findPlayer s aId = some pa ∧ findPlayer s bId = some pb ∧
      s'.teams = s.teams.map (v4OldTeamUpdate aId bId pa.teamId pb.teamId)
        ++ [{ index := lastTeamIndex s + 1, members := [aId, bId] }] ∧
      teamIdOf s' aId = some (lastTeamIndex s + 1) ∧
      teamIdOf s' bId = some (lastTeamIndex s + 1) ∧
      WF s' := by
  obtain ⟨hwf, hnil, hbound, hsize⟩ := hinv
  obtain ⟨s2, h1, h2⟩ := variation_4_ok_true h
  have hfresh : ∀ t ∈ s.teams, t.index ≠ lastTeamIndex s + 1 := by
    intro t ht
    have := hbound t ht
    omega
  obtain ⟨hwf1, -, -, -⟩ := addTeam_WF hwf hfresh
  obtain ⟨hwf2, -, -, -, -⟩ := joinTeam_WF hwf1 h1
  obtain ⟨hwf3, -, -, -, -⟩ := joinTeam_WF hwf2 h2
  obtain ⟨pa, tolda, hpa1, htolda, hmema, htgta, hs2⟩ := joinTeam_ok h1
  have hpa : findPlayer s aId = some pa := hpa1
  obtain ⟨hpamem, hpaid⟩ := findPlayer_some hpa
  obtain ⟨pb2, toldb, hpb2, htoldb, hmemb, htgtb, hs3⟩ := joinTeam_ok h2
  have hfsb : findPlayer s2 bId = some pb2 := hpb2
  have hfb : findPlayer s2 bId
      = (findPlayer s bId).map
          (fun q => if q.id = aId then { q with teamId := lastTeamIndex s + 1 } else q) := by
    rw [hs2]
    show (updatePlayers s.players aId
        (fun q => { q with teamId := lastTeamIndex s + 1 })).find? (fun p => p.id = bId) = _
    rw [find?_updatePlayers s.players aId (fun q => { q with teamId := lastTeamIndex s + 1 }) (fun q => rfl) bId]
    rfl
  rw [hfb] at hpb2
  obtain ⟨pb, hpb, hgpb⟩ := Option.map_eq_some'.mp hpb2
  obtain ⟨hpbmem, hpbid⟩ := findPlayer_some hpb
  have hpbna : ¬ (pb.id = aId) := by rw [hpbid]; exact fun hc => hne hc.symm
  have hpb2eq : pb2 = pb := by rw [← hgpb, if_neg hpbna]
  have hfsb2 : findPlayer s2 bId = some pb := hpb2eq ▸ hfsb
  obtain ⟨ta0, hta0, hta0i⟩ := hwf.2.2.2.1 pa hpamem
  have hpaT : pa.teamId ≤ lastTeamIndex s := by rw [← hta0i]; exact hbound ta0 hta0
  obtain ⟨tb0, htb0, htb0i⟩ := hwf.2.2.2.1 pb hpbmem
  have hpbT : pb.teamId ≤ lastTeamIndex s := by rw [← htb0i]; exact hbound tb0 htb0
  have hteams : s'.teams = s.teams.map (v4OldTeamUpdate aId bId pa.teamId pb.teamId)
      ++ [{ index := lastTeamIndex s + 1, members := [aId, bId] }] := by
    rw [hs3, hpb2eq, hs2]
    show updateTeams (updateTeams (updateTeams (updateTeams
        (s.teams ++ [{ index := lastTeamIndex s + 1, members := [] }]) pa.teamId
        (fun t => { t with members := t.members.erase aId })) (lastTeamIndex s + 1)
        (fun t => { t with members := t.members ++ [aId] })) pb.teamId
        (fun t => { t with members := t.members.erase bId })) (lastTeamIndex s + 1)
        (fun t => { t with members := t.members ++ [bId] })
      = _
    simp only [updateTeams, List.map_map, List.map_append]
    congr 1
    · refine List.map_congr_left ?_
      intro t ht
      have htN : ¬ (t.index = lastTeamIndex s + 1) := hfresh t ht
      simp only [Function.comp, v4OldTeamUpdate]
      simp only [apply_ite (fun x : TeamSt => x.index), apply_ite (fun x : TeamSt => x.members)]
      simp only [ite_self, htN, if_false, ite_false]
      by_cases hB : t.index = pb.teamId <;> by_cases hA : t.index = pa.teamId
      · have hc : pa.teamId = pb.teamId := by rw [← hA]; exact hB
        simp [hA, hB, hc]
      · have hc : ¬ (pb.teamId = pa.teamId) := by rw [← hB]; exact hA
        simp [hA, hB, hc]
      · have hc : ¬ (pa.teamId = pb.teamId) := by rw [← hA]; exact hB
        simp [hA, hB, hc]
      · simp [hA, hB]
    · have hA : ¬ ((lastTeamIndex s + 1) = pa.teamId) := by omega
      have hB : ¬ ((lastTeamIndex s + 1) = pb.teamId) := by omega
      simp [Function.comp, hA, hB]
  have hfa2 : findPlayer s2 aId = some { pa with teamId := lastTeamIndex s + 1 } := by
    rw [hs2]
    show (updatePlayers s.players aId
        (fun q => { q with teamId := lastTeamIndex s + 1 })).find? (fun p => p.id = aId) = _
    rw [find?_updatePlayers s.players aId (fun q => { q with teamId := lastTeamIndex s + 1 }) (fun q => rfl) aId]
    show (findPlayer s aId).map _ = _
    rw [hpa]
    simp [hpaid]
  have hfa3 : findPlayer s' aId = some { pa with teamId := lastTeamIndex s + 1 } := by
    rw [hs3]
    show (updatePlayers s2.players bId
        (fun q => { q with teamId := lastTeamIndex s + 1 })).find? (fun p => p.id = aId) = _
    rw [find?_updatePlayers s2.players bId (fun q => { q with teamId := lastTeamIndex s + 1 }) (fun q => rfl) aId]
    show (findPlayer s2 aId).map _ = _
    rw [hfa2]
    simp [hpaid, hne]
  have hfb3 : findPlayer s' bId = some { pb with teamId := lastTeamIndex s + 1 } := by
    rw [hs3]
    show (updatePlayers s2.players bId
        (fun q => { q with teamId := lastTeamIndex s + 1 })).find? (fun p => p.id = bId) = _
    rw [find?_updatePlayers s2.players bId (fun q => { q with teamId := lastTeamIndex s + 1 }) (fun q => rfl) bId]
    show (findPlayer s2 bId).map _ = _
    rw [hfsb2]
    simp [hpbid]
  have htida : teamIdOf s' aId = some (lastTeamIndex s + 1) := by
    rw [teamIdOf, hfa3]
    rfl
  have htidb : teamIdOf s' bId = some (lastTeamIndex s + 1) := by
    rw [teamIdOf, hfb3]
    rfl
  exact ⟨pa, pb, hpa, hpb, hteams, htida, htidb, hwf3⟩


def V4Step (s s' : State) : Prop :=
  ∃ cm aId bId, aId ≠ bId ∧ variation_4 s cm aId bId = .ok (true, s')

theorem v4_step_inv {s s' : State} (hinv : Inv9 s) (hstep : V4Step s s') : Inv9 s' := by
  obtain ⟨cm, aId, bId, hne, h⟩ := hstep
  obtain ⟨pa, pb, hpa, hpb, hteams, -, -, hwf'⟩ := variation_4_structure hinv hne h
  have hlast : lastTeamIndex s' = lastTeamIndex s + 1 := by
    rw [lastTeamIndex, hteams]
    simp
  refine ⟨hwf', ?_, ?_, ?_⟩
  · rw [hteams]
    simp
  · intro t ht
    rw [hteams] at ht
    rw [hlast]
    rcases List.mem_append.mp ht with h1 | h2
    · rcases List.mem_map.mp h1 with ⟨t0, ht0, rfl⟩
      have hb := hinv.2.2.1 t0 ht0
      have hidx : (v4OldTeamUpdate aId bId pa.teamId pb.teamId t0).index = t0.index := rfl
      omega
    · have ht2 : t = { index := lastTeamIndex s + 1, members := [aId, bId] } := by
        simpa using h2
      rw [ht2]
  · intro t ht
    rw [hteams] at ht
    rcases List.mem_append.mp ht with h1 | h2
    · rcases List.mem_map.mp h1 with ⟨t0, ht0, rfl⟩
      have hb := hinv.2.2.2 t0 ht0
      have herase : ∀ (l : List Nat) (x : Nat), (l.erase x).length ≤ l.length :=
        fun l x => (List.erase_sublist x l).length_le
      have hm : (v4OldTeamUpdate aId bId pa.teamId pb.teamId t0).members =
          (if t0.index = pb.teamId
            then (if t0.index = pa.teamId then t0.members.erase aId else t0.members).erase bId
            else (if t0.index = pa.teamId then t0.members.erase aId else t0.members)) := rfl
      rw [hm]
      split_ifs <;>
        first
          | exact le_trans (herase _ _) (le_trans (herase _ _) hb)
          | exact le_trans (herase _ _) hb
          | exact hb
    · have ht2 : t = { index := lastTeamIndex s + 1, members := [aId, bId] } := by
        simpa using h2
      rw [ht2]
      exact Nat.le_refl 2


/-- C9: from any state satisfying the variation-4 invariant (as the initial
singleton-team allocation does), no sequence of successful variation-4
negotiations between distinct players ever produces a team with more than
two members; moreover each further successful negotiation appends one
brand-new team whose index is one greater than the last existing team's
index and whose member list is exactly the two negotiating players, both of
whom are erased from their previous teams and repointed at the new team. -/
theorem c9_variation4_team_bound (s₀ s : State) (hinv : Inv9 s₀)
    (hsteps : Relation.ReflTransGen V4Step s₀ s) :
    (∀ t ∈ s.teams, t.members.length ≤ 2) ∧
    (∀ sNext cm aId bId, aId ≠ bId →
      variation_4 s cm aId bId = .ok (true, sNext) →
      ∃ pa pb, findPlayer s aId = some pa ∧ findPlayer s bId = some pb ∧
        sNext.teams = s.teams.map (v4OldTeamUpdate aId bId pa.teamId pb.teamId)
          ++ [{ index := lastTeamIndex s + 1, members := [aId, bId] }] ∧
        teamIdOf sNext aId = some (lastTeamIndex s + 1) ∧
        teamIdOf sNext bId = some (lastTeamIndex s + 1)) := by
  have hs : Inv9 s := by
    induction hsteps with
    | refl => exact hinv
    | tail hab hbc ih => exact v4_step_inv ih hbc
  refine ⟨hs.2.2.2, ?_⟩
  intro sNext cm aId bId hne h
  obtain ⟨pa, pb, hpa, hpb, hteams, hta, htb, -⟩ := variation_4_structure hs hne h
  exact ⟨pa, pb, hpa, hpb, hteams, hta, htb⟩

def csV4Start : State :=
  { players := [
      { id := 0, resource := 'A', objectives := [(0, ⟨'b', 1, 20⟩)], teamId := 0 },
      { id := 1, resource := 'B', objectives := [(1, ⟨'a', 1, 20⟩)], teamId := 1 }],
    teams := [{ index := 0, members := [0] }, { index := 1, members := [1] }],
    dropped := [], traded := [] }

def csV4After : State :=
  { players := [
      { id := 0, resource := 'A', objectives := [(0, ⟨'b', 1, 20⟩)], teamId := 2 },
      { id := 1, resource := 'B', objectives := [(1, ⟨'a', 1, 20⟩)], teamId := 2 }],
    teams := [{ index := 0, members := [] }, { index := 1, members := [] },
              { index := 2, members := [0, 1] }],
    dropped := [], traded := [] }

/-- C9, witness: a concrete two-player state, one successful
variation-4 negotiation. -/
theorem c9_witness :
    Inv9 csV4Start ∧ (∀ t ∈ csV4After.teams, t.members.length ≤ 2) := by
  have hInv : Inv9 csV4Start := by
    refine ⟨by unfold WF; decide, by decide, by decide, by decide⟩
  exact ⟨hInv, (c9_variation4_team_bound csV4Start csV4After hInv
    (Relation.ReflTransGen.single ⟨false, 0, 1, by decide, by decide⟩)).1⟩


/-- Cost accounting from `s` to `s\'` between initiator `xId` and responder
`yId`: the responder never loses an objective instance; the initiator\'s
holdings plus the dropped and traded ledgers balance exactly; the initiator
loses at most one objective and never gains one; the ledgers only grow. -/
def PaysAtMostOne (s s' : State) (xId yId : Nat) : Prop :=
  objCount s yId ≤ objCount s' yId ∧
  objCount s' xId + s'.dropped.length + s'.traded.length
    = objCount s xId + s.dropped.length + s.traded.length ∧
  objCount s xId ≤ objCount s' xId + 1 ∧
  objCount s' xId ≤ objCount s xId ∧
  s.dropped.length ≤ s'.dropped.length ∧
  s.traded.length ≤ s'.traded.length

theorem objCount_congr {s s' : State} {q : Nat}
    (h : findPlayer s' q = findPlayer s q) : objCount s' q = objCount s q := by
  rw [objCount, objCount, h]

theorem PaysAtMostOne_refl (s : State) (xId yId : Nat) : PaysAtMostOne s s xId yId :=
  ⟨Nat.le_refl _, rfl, Nat.le_succ _, Nat.le_refl _, Nat.le_refl _, Nat.le_refl _⟩

theorem PaysAtMostOne_drop {s s' : State} {xId yId n : Nat} (hne : xId ≠ yId)
    (h : dropObjective s xId n = .ok s') : PaysAtMostOne s s' xId yId := by
  obtain ⟨hx, hother, hdrop, -, htraded, -⟩ := dropObjective_counts h
  have hy : objCount s' yId = objCount s yId :=
    objCount_congr (hother yId (fun hc => hne hc.symm))
  have ht : s'.traded.length = s.traded.length := by rw [htraded]
  exact ⟨by omega, by omega, by omega, by omega, by omega, by omega⟩

theorem PaysAtMostOne_give {s s' : State} {xId yId n : Nat} (hne : xId ≠ yId)
    (h : giveObjective s xId n yId = .ok s') : PaysAtMostOne s s' xId yId := by
  obtain ⟨hx, hy, -, htr, -, hdr, -, -⟩ := giveObjective_counts hne h
  have hd : s'.dropped.length = s.dropped.length := by rw [hdr]
  exact ⟨hy, by omega, by omega, by omega, by omega, by omega⟩

theorem PaysAtMostOne_join_right {s s1 s' : State} {pid tid xId yId : Nat}
    (hP : PaysAtMostOne s s1 xId yId) (h : joinTeam s1 pid tid = .ok s') :
    PaysAtMostOne s s' xId yId := by
  obtain ⟨hobj, hdr, htr, -, -⟩ := joinTeam_counts h
  obtain ⟨p1, p2, p3, p4, p5, p6⟩ := hP
  have hx := hobj xId
  have hy := hobj yId
  have h1 : s'.dropped.length = s1.dropped.length := by rw [hdr]
  have h2 : s'.traded.length = s1.traded.length := by rw [htr]
  exact ⟨by omega, by omega, by omega, by omega, by omega, by omega⟩

theorem PaysAtMostOne_join_then {s s1 s' : State} {pid tid xId yId : Nat}
    (h : joinTeam s pid tid = .ok s1) (hP : PaysAtMostOne s1 s' xId yId) :
    PaysAtMostOne s s' xId yId := by
  obtain ⟨hobj, hdr, htr, -, -⟩ := joinTeam_counts h
  obtain ⟨p1, p2, p3, p4, p5, p6⟩ := hP
  have hx := hobj xId
  have hy := hobj yId
  have h1 : s1.dropped.length = s.dropped.length := by rw [hdr]
  have h2 : s1.traded.length = s.traded.length := by rw [htr]
  exact ⟨by omega, by omega, by omega, by omega, by omega, by omega⟩

def costStep (s : State) (x : Nat) (d : Option Nat) : Except String State :=
  match d with
  | some n => if n = 0 then pure s else dropObjective s x n
  | none => pure s

def payStep (s : State) (x : Nat) (g : Option Nat) (y : Nat) : Except String State :=
  match g with
  | some n => if n = 0 then pure s else giveObjective s x n y
  | none => pure s

theorem inviteGrant_eq (s : State) (x y : Nat) (d g : Option Nat) :
    inviteGrant s x y d g =
      costStep s x d >>= fun s1 => payStep s1 x g y >>= fun s2 =>
        match findPlayer s2 y with
        | none => .error "missing invitee"
        | some q => joinTeam s2 y q.teamId >>= fun s3 => pure (true, s3) := by
  rcases d with _ | n
  · rcases g with _ | m
    · rfl
    · by_cases hm : m = 0 <;>
        simp [inviteGrant, costStep, payStep, hm, Bind.bind, Except.bind, pure, Except.pure]
  · rcases g with _ | m
    · by_cases hn : n = 0 <;>
        simp [inviteGrant, costStep, payStep, hn, Bind.bind, Except.bind, pure, Except.pure]
    · by_cases hn : n = 0 <;> by_cases hm : m = 0 <;>
        simp [inviteGrant, costStep, payStep, hn, hm, Bind.bind, Except.bind, pure, Except.pure]

theorem moveGrant_eq (s : State) (x y : Nat) (d g : Option Nat) :
    moveGrant s x y d g =
      costStep s x d >>= fun s1 => payStep s1 x g y >>= fun s2 =>
        match findPlayer s2 y with
        | none => .error "missing asked"
        | some q => joinTeam s2 x q.teamId >>= fun s3 => pure (true, s3) := by
  rcases d with _ | n
  · rcases g with _ | m
    · rfl
    · by_cases hm : m = 0 <;>
        simp [moveGrant, costStep, payStep, hm, Bind.bind, Except.bind, pure, Except.pure]
  · rcases g with _ | m
    · by_cases hn : n = 0 <;>
        simp [moveGrant, costStep, payStep, hn, Bind.bind, Except.bind, pure, Except.pure]
    · by_cases hn : n = 0 <;> by_cases hm : m = 0 <;>
        simp [moveGrant, costStep, payStep, hn, hm, Bind.bind, Except.bind, pure, Except.pure]

theorem costStep_cases {s s1 : State} {x : Nat} {d : Option Nat}
    (h : costStep s x d = .ok s1) :
    s = s1 ∨ (∃ n, dropObjective s x n = .ok s1) ∧ pyTruthy d = true := by
  unfold costStep at h
  rcases d with _ | n
  · exact Or.inl (by simpa [pure, Except.pure] using h)
  · dsimp only at h
    by_cases hn : n = 0
    · rw [if_pos hn] at h
      exact Or.inl (by simpa [pure, Except.pure] using h)
    · rw [if_neg hn] at h
      exact Or.inr ⟨⟨n, h⟩, by simp [pyTruthy, hn]⟩

theorem payStep_cases {s s1 : State} {x y : Nat} {g : Option Nat}
    (h : payStep s x g y = .ok s1) :
    s = s1 ∨ (∃ n, giveObjective s x n y = .ok s1) ∧ pyTruthy g = true := by
  unfold payStep at h
  rcases g with _ | n
  · exact Or.inl (by simpa [pure, Except.pure] using h)
  · dsimp only at h
    by_cases hn : n = 0
    · rw [if_pos hn] at h
      exact Or.inl (by simpa [pure, Except.pure] using h)
    · rw [if_neg hn] at h
      exact Or.inr ⟨⟨n, h⟩, by simp [pyTruthy, hn]⟩

theorem inviteGrant_counts {s : State} {x y : Nat} {d g : Option Nat} {r : Bool × State}
    (hne : x ≠ y) (hguard : pyTruthy d = false ∨ pyTruthy g = false)
    (h : inviteGrant s x y d g = .ok r) : PaysAtMostOne s r.2 x y := by
  rw [inviteGrant_eq] at h
  simp only [exceptBind_ok] at h
  obtain ⟨s1, hs1, s2, hs2, h⟩ := h
  have base : PaysAtMostOne s s2 x y := by
    rcases costStep_cases hs1 with he1 | ⟨⟨n, hdropd⟩, hd⟩
    · rcases payStep_cases hs2 with he2 | ⟨⟨m, hgiven⟩, -⟩
      · rw [← he2, ← he1]
        exact PaysAtMostOne_refl s x y
      · rw [he1]
        exact PaysAtMostOne_give hne hgiven
    · rcases payStep_cases hs2 with he2 | ⟨-, hg⟩
      · rw [← he2]
        exact PaysAtMostOne_drop hne hdropd
      · rcases hguard with hgf | hgf
        · rw [hd] at hgf
          exact Bool.noConfusion hgf
        · rw [hg] at hgf
          exact Bool.noConfusion hgf
  rcases hq : findPlayer s2 y with _ | q
  · rw [hq] at h
    exact absurd h (by simp)
  · rw [hq] at h
    simp only [exceptBind_ok, pure, Except.pure, Except.ok.injEq] at h
    obtain ⟨s3, hj, hr⟩ := h
    have hr2 : r.2 = s3 := by rw [← hr]
    rw [hr2]
    exact PaysAtMostOne_join_right base hj

theorem moveGrant_counts {s : State} {x y : Nat} {d g : Option Nat} {r : Bool × State}
    (hne : x ≠ y) (hguard : pyTruthy d = false ∨ pyTruthy g = false)
    (h : moveGrant s x y d g = .ok r) : PaysAtMostOne s r.2 x y := by
  rw [moveGrant_eq] at h
  simp only [exceptBind_ok] at h
  obtain ⟨s1, hs1, s2, hs2, h⟩ := h
  have base : PaysAtMostOne s s2 x y := by
    rcases costStep_cases hs1 with he1 | ⟨⟨n, hdropd⟩, hd⟩
    · rcases payStep_cases hs2 with he2 | ⟨⟨m, hgiven⟩, -⟩
      · rw [← he2, ← he1]
        exact PaysAtMostOne_refl s x y
      · rw [he1]
        exact PaysAtMostOne_give hne hgiven
    · rcases payStep_cases hs2 with he2 | ⟨-, hg⟩
      · rw [← he2]
        exact PaysAtMostOne_drop hne hdropd
      · rcases hguard with hgf | hgf
        · rw [hd] at hgf
          exact Bool.noConfusion hgf
        · rw [hg] at hgf
          exact Bool.noConfusion hgf
  rcases hq : findPlayer s2 y with _ | q
  · rw [hq] at h
    exact absurd h (by simp)
  · rw [hq] at h
    simp only [exceptBind_ok, pure, Except.pure, Except.ok.injEq] at h
    obtain ⟨s3, hj, hr⟩ := h
    have hr2 : r.2 = s3 := by rw [← hr]
    rw [hr2]
    exact PaysAtMostOne_join_right base hj

theorem invite_counts {s : State} {x y : Nat} {dm ds : Int} {d g : Option Nat} {s' : State}
    (hne : x ≠ y) (h : invite s x y dm ds d g = .ok (true, s')) :
    PaysAtMostOne s s' x y := by
  unfold invite at h
  by_cases hb : (pyTruthy d && pyTruthy g) = true
  · rw [if_pos hb] at h
    exact absurd h (by simp)
  · rw [if_neg hb] at h
    have hguard : pyTruthy d = false ∨ pyTruthy g = false := by
      cases hd : pyTruthy d
      · exact Or.inl rfl
      · cases hg : pyTruthy g
        · exact Or.inr rfl
        · exact absurd (by simp [hd, hg]) hb
    split at h
    · exact inviteGrant_counts hne hguard h
    · split at h
      · exact absurd h (by simp [pure, Except.pure])
      · split at h
        · exact inviteGrant_counts hne hguard h
        · exact absurd h (by simp [pure, Except.pure])

theorem move_counts {s : State} {x y : Nat} {dm ds : Int} {d g : Option Nat} {s' : State}
    (hne : x ≠ y) (h : move s x y dm ds d g = .ok (true, s')) :
    PaysAtMostOne s s' x y := by
  unfold move at h
  by_cases hb : (pyTruthy d && pyTruthy g) = true
  · rw [if_pos hb] at h
    exact absurd h (by simp)
  · rw [if_neg hb] at h
    have hguard : pyTruthy d = false ∨ pyTruthy g = false := by
      cases hd : pyTruthy d
      · exact Or.inl rfl
      · cases hg : pyTruthy g
        · exact Or.inr rfl
        · exact absurd (by simp [hd, hg]) hb
    split at h
    · exact moveGrant_counts hne hguard h
    · split at h
      · exact absurd h (by simp [pure, Except.pure])
      · split at h
        · exact moveGrant_counts hne hguard h
        · exact absurd h (by simp [pure, Except.pure])


theorem variation_1_counts {s : State} {cm coin : Bool} {aId bId : Nat} {s' : State}
    (hne : aId ≠ bId)
    (h : variation_1 s cm coin aId bId = .ok (true, s')) :
    PaysAtMostOne s s' aId bId := by
  unfold variation_1 at h
  simp only [exceptBind_ok] at h
  obtain ⟨pa, -, pb, -, ta, -, tb, -, atm, -, ats, -, btm, -, bts, -, ac, -, bc, -, h⟩ := h
  cases cm with
  | true =>
    rw [if_pos rfl] at h
    simp only [exceptBind_ok] at h
    obtain ⟨cb, -, aod, -, bod, -, h⟩ := h
    split at h
    · simp only [exceptBind_ok, pure, Except.pure, Except.ok.injEq, Prod.mk.injEq, true_and] at h
      obtain ⟨s1, hj, h⟩ := h
      split at h
      · simp only [exceptBind_ok, Except.ok.injEq, Prod.mk.injEq, true_and] at h
        obtain ⟨s2, hm, hs2⟩ := h
        rw [← hs2]
        exact PaysAtMostOne_join_then hj (PaysAtMostOne_drop hne hm)
      · exact absurd h (by simp [Bind.bind, Except.bind])
    · split at h
      · simp only [exceptBind_ok, pure, Except.pure, Except.ok.injEq, Prod.mk.injEq, true_and] at h
        obtain ⟨s1, hj, h⟩ := h
        split at h
        · simp only [exceptBind_ok, Except.ok.injEq, Prod.mk.injEq, true_and] at h
          obtain ⟨s2, hm, hs2⟩ := h
          rw [← hs2]
          exact PaysAtMostOne_join_then hj (PaysAtMostOne_drop hne hm)
        · exact absurd h (by simp [Bind.bind, Except.bind])
      · split at h
        · split at h
          · simp only [exceptBind_ok, pure, Except.pure, Except.ok.injEq, Prod.mk.injEq,
              true_and] at h
            obtain ⟨s1, hj, h⟩ := h
            split at h
            · simp only [exceptBind_ok, Except.ok.injEq, Prod.mk.injEq, true_and] at h
              obtain ⟨s2, hm, hs2⟩ := h
              rw [← hs2]
              exact PaysAtMostOne_join_then hj (PaysAtMostOne_drop hne hm)
            · exact absurd h (by simp [Bind.bind, Except.bind])
          · simp only [exceptBind_ok, pure, Except.pure, Except.ok.injEq, Prod.mk.injEq,
              true_and] at h
            obtain ⟨s1, hj, h⟩ := h
            split at h
            · simp only [exceptBind_ok, Except.ok.injEq, Prod.mk.injEq, true_and] at h
              obtain ⟨s2, hm, hs2⟩ := h
              rw [← hs2]
              exact PaysAtMostOne_join_then hj (PaysAtMostOne_drop hne hm)
            · exact absurd h (by simp [Bind.bind, Except.bind])
        · exact absurd h (by simp [pure, Except.pure])
  | false =>
    rw [if_neg (by simp)] at h
    split at h
    · exact absurd h (by simp [pure, Except.pure])
    · split at h
      · exact move_counts hne h
      · split at h
        · exact invite_counts hne h
        · split at h
          · split at h
            · exact invite_counts hne h
            · split at h
              · exact move_counts hne h
              · split at h
                · split at h
                  · exact move_counts hne h
                  · exact invite_counts hne h
                · exact absurd h (by simp [pure, Except.pure])
          · exact absurd h (by simp [pure, Except.pure])

theorem variation_2_counts {s : State} {cm coin : Bool} {aId bId : Nat} {s' : State}
    (hne : aId ≠ bId)
    (h : variation_2 s cm coin aId bId = .ok (true, s')) :
    PaysAtMostOne s s' aId bId := by
  unfold variation_2 at h
  simp only [exceptBind_ok] at h
  obtain ⟨pa, -, pb, -, ta, -, tb, -, atm, -, ats, -, btm, -, bts, -, ac, -, bc, -, h⟩ := h
  cases cm with
  | true =>
    rw [if_pos rfl] at h
    simp only [exceptBind_ok] at h
    obtain ⟨cb, -, aod, -, bod, -, h⟩ := h
    split at h
    · split at h
      · simp only [exceptBind_ok, pure, Except.pure, Except.ok.injEq, Prod.mk.injEq,
          true_and] at h
        obtain ⟨s1, hm, s2, hj, hs2⟩ := h
        rw [← hs2]
        exact PaysAtMostOne_join_right (PaysAtMostOne_give hne hm) hj
      · exact absurd h (by simp [Bind.bind, Except.bind])
    · split at h
      · split at h
        · simp only [exceptBind_ok, pure, Except.pure, Except.ok.injEq, Prod.mk.injEq,
            true_and] at h
          obtain ⟨s1, hm, s2, hj, hs2⟩ := h
          rw [← hs2]
          exact PaysAtMostOne_join_right (PaysAtMostOne_give hne hm) hj
        · exact absurd h (by simp [Bind.bind, Except.bind])
      · split at h
        · split at h
          · split at h
            · simp only [exceptBind_ok, pure, Except.pure, Except.ok.injEq, Prod.mk.injEq,
                true_and] at h
              obtain ⟨s1, hm, s2, hj, hs2⟩ := h
              rw [← hs2]
              exact PaysAtMostOne_join_right (PaysAtMostOne_give hne hm) hj
            · exact absurd h (by simp [Bind.bind, Except.bind])
          · split at h
            · simp only [exceptBind_ok, pure, Except.pure, Except.ok.injEq, Prod.mk.injEq,
                true_and] at h
              obtain ⟨s1, hm, s2, hj, hs2⟩ := h
              rw [← hs2]
              exact PaysAtMostOne_join_right (PaysAtMostOne_give hne hm) hj
            · exact absurd h (by simp [Bind.bind, Except.bind])
        · exact absurd h (by simp [pure, Except.pure])
  | false =>
    rw [if_neg (by simp)] at h
    split at h
    · exact absurd h (by simp [pure, Except.pure])
    · split at h
      · exact move_counts hne h
      · split at h
        · exact invite_counts hne h
        · split at h
          · split at h
            · exact invite_counts hne h
            · split at h
              · exact move_counts hne h
              · split at h
                · split at h
                  · exact move_counts hne h
                  · exact invite_counts hne h
                · exact absurd h (by simp [pure, Except.pure])
          · exact absurd h (by simp [pure, Except.pure])


/-- C2 (corrected): in every successful merge of variation 1 (drop-to-join)
and variation 2 (pay-to-join) — under either motivation mode and either
resolution of the random tie-breaks — the cost is always charged to the
initiating player `player_a`, not to the player who changes team
membership: the responder `player_b` never loses an objective instance,
while `player_a` loses at most one (and never gains any), with
`player_a`\'s holdings plus the dropped and traded ledgers balancing
exactly.  The cost is *at most* once rather than exactly once because the
`if objective_to_drop:`/`if objective_to_give:` truthiness guards inside
invite/move silently skip the payment when the selected objective key
is 0. -/
theorem c2_cost_charged_to_initiator (s : State) (cm coin : Bool) (aId bId : Nat)
    (s' : State) (hne : aId ≠ bId)
    (h : variation_1 s cm coin aId bId = .ok (true, s') ∨
         variation_2 s cm coin aId bId = .ok (true, s')) :
    objCount s bId ≤ objCount s' bId ∧
    objCount s' aId + s'.dropped.length + s'.traded.length
      = objCount s aId + s.dropped.length + s.traded.length ∧
    objCount s aId ≤ objCount s' aId + 1 ∧
    objCount s' aId ≤ objCount s aId := by
  have hP : PaysAtMostOne s s' aId bId := by
    rcases h with h | h
    · exact variation_1_counts hne h
    · exact variation_2_counts hne h
  obtain ⟨p1, p2, p3, p4, -, -⟩ := hP
  exact ⟨p1, p2, p3, p4⟩

/-- C2, witness: the concrete variation-1 run of `c2_counterexample`\'s
state, instantiating the corrected accounting theorem. -/
theorem c2_witness :
    objCount v1DemoState 1 ≤ objCount v1DemoAfter 1 ∧
    objCount v1DemoAfter 0 + v1DemoAfter.dropped.length + v1DemoAfter.traded.length
      = objCount v1DemoState 0 + v1DemoState.dropped.length + v1DemoState.traded.length ∧
    objCount v1DemoState 0 ≤ objCount v1DemoAfter 0 + 1 ∧
    objCount v1DemoAfter 0 ≤ objCount v1DemoState 0 :=
  c2_cost_charged_to_initiator v1DemoState false false 0 1 v1DemoAfter
    (by decide) (Or.inl (by decide))

end NPSim
